import Mathlib

/-!
# yanoPortfolio back end: a shallow embedding and its verified properties

The Go program under `back/` serves two read-only routes that report the
track a Spotify user is playing now and the one played last.  This file
embeds the functions of `auth/spotify.go`, `logic/nowplaying.go`,
`logic/lastplayed.go` and `handler/api/*.go` as Lean functions, together
with models of the library calls they make (`encoding/json`, `time`,
`net/url`, `net/http`, the Spotify client), and proves the properties of the
specification about them.

Conventions.
* A Go function returning `(T, error)` is a function into `Outcome T`.  Besides
  the two returns (`ok`, `err`) an outcome records a run-time fault (a Go
  panic such as an index out of range or a nil dereference) and a goroutine
  that never resumes (`hang`).
* A Go `string` is a Lean `String`; a `[]byte` that may be `nil` is an
  `Option Bytes`.
* A Go `map[string]string` is an association list; a missing key reads `""`.
-/

namespace YanoPortfolio

/-! ## Outcomes of Go calls -/

/-- Result of running a Go function of result type `(T, error)`. -/
inductive Outcome (α : Type) where
  /-- the function returned a value and a nil error -/
  | ok : α → Outcome α
  /-- the function returned a non-nil error -/
  | err : String → Outcome α
  /-- the function did not return: a run-time fault unwound the goroutine -/
  | fault : String → Outcome α
  /-- the function did not return: the goroutine waits forever -/
  | hang : Outcome α
  deriving DecidableEq, Repr

/-- The function came back to its caller, with a value or with an error. -/
def Outcome.returned {α : Type} : Outcome α → Bool
  | .ok _ => true
  | .err _ => true
  | .fault _ => false
  | .hang => false

/-- Byte strings. -/
abbrev Bytes := List UInt8

/-- The bytes of a Go string holding the text `s` (UTF-8). -/
def utf8 (s : String) : Bytes := s.data.flatMap String.utf8EncodeChar

/-- Reading `m[k]` from a Go `map[string]string`: the zero value when absent. -/
def mapGet (m : List (String × String)) (k : String) : String :=
  (m.lookup k).getD ""

/-- Reading `xs[0]` from a Go slice: a run-time fault when the slice is empty. -/
def index0 {α : Type} (xs : List α) : Outcome α :=
  match xs with
  | x :: _ => .ok x
  | [] => .fault "index out of range [0] with length 0"

/-! ## `encoding/json`: marshalling a struct of string fields -/

/-- Lower-case hexadecimal digit, as in Go's `const hex = "0123456789abcdef"`. -/
def hexDigit (n : Nat) : Char :=
  if n < 10 then Char.ofNat (48 + n) else Char.ofNat (87 + n)

/-- The escape `\u00XX` of a byte below 0x80. -/
def escapeU00 (c : Char) : List Char :=
  ['\\', 'u', '0', '0', hexDigit (c.toNat / 16), hexDigit (c.toNat % 16)]

/-- One character of a JSON string literal, after `appendString` of
`encoding/json` with HTML escaping on (the setting `json.Marshal` uses,
Go 1.22 and later). -/
def jsonEscapeChar (c : Char) : List Char :=
  if c = '"' then ['\\', '"']
  else if c = '\\' then ['\\', '\\']
  else if c.toNat = 8 then ['\\', 'b']
  else if c.toNat = 12 then ['\\', 'f']
  else if c = '\n' then ['\\', 'n']
  else if c = '\r' then ['\\', 'r']
  else if c = '\t' then ['\\', 't']
  else if c.toNat < 32 ∨ c = '<' ∨ c = '>' ∨ c = '&' then escapeU00 c
  else if c.toNat = 0x2028 then ['\\', 'u', '2', '0', '2', '8']
  else if c.toNat = 0x2029 then ['\\', 'u', '2', '0', '2', '9']
  else [c]

/-- A JSON string literal for the Go string `s`. -/
def jsonString (s : String) : String :=
  String.mk ('"' :: s.data.flatMap jsonEscapeChar ++ ['"'])

/-- The loop of the struct encoder of `encoding/json` over the fields, given as (json
tag, value) in declaration order: before each field the byte `next`, which is
the opening brace for the first field and a comma afterwards, then the quoted
tag, a colon and the value; at the end the closing brace, or `{}` when there
was no field. -/
def encodeFields : Char → List (String × String) → List Char
  | next, [] => if next = '{' then ['{', '}'] else ['}']
  | next, (tag, value) :: rest =>
    next :: (jsonString tag).data ++ ':' :: (jsonString value).data ++ encodeFields ',' rest

/-- Result of `json.Marshal` on a struct whose exported fields are all strings.  Such a
value has no unsupported type and no cycle, so the call returns a nil error. -/
def jsonMarshal (fields : List (String × String)) : Except String String :=
  .ok (String.mk (encodeFields '{' fields))

/-! ## Spotify data, as declared by `github.com/zmb3/spotify/v2` -/

/-- An album cover: `spotify.Image`. -/
structure Image where
  Height : Nat
  Width : Nat
  URL : String
  deriving DecidableEq, Repr

/-- An artist: `spotify.SimpleArtist`, the fields the program reads. -/
structure SimpleArtist where
  Name : String
  ExternalURLs : List (String × String)
  deriving DecidableEq, Repr

/-- An album: `spotify.SimpleAlbum`, the fields the program reads. -/
structure SimpleAlbum where
  Name : String
  Images : List Image
  ExternalURLs : List (String × String)
  deriving DecidableEq, Repr

/-- A track: the fields `spotify.FullTrack` and `spotify.SimpleTrack` share and the
program reads. -/
structure Track where
  Name : String
  ExternalURLs : List (String × String)
  Album : SimpleAlbum
  Artists : List SimpleArtist
  deriving DecidableEq, Repr

/-- The upstream answer `spotify.CurrentlyPlaying`; `Item` is a pointer, nil when
nothing plays. -/
structure CurrentlyPlaying where
  Item : Option Track
  deriving DecidableEq, Repr

/-- An OAuth token: `oauth2.Token`; `Expiry` is the zero time when `none`. -/
structure Token where
  AccessToken : String := ""
  TokenType : String := ""
  RefreshToken : String := ""
  Expiry : Option Int := none
  deriving DecidableEq, Repr

/-- The configuration of a `spotifyauth.Authenticator`. -/
structure Authenticator where
  Scopes : List String := []
  ClientID : String := ""
  ClientSecret : String := ""
  RedirectURL : String := ""
  deriving DecidableEq, Repr

/-- A Spotify client: `spotify.Client`, identified by the HTTP client it was made of,
which `Authenticator.Client(ctx, token)` builds from a configuration and a token. -/
structure Client where
  authenticator : Authenticator := {}
  token : Token
  deriving DecidableEq, Repr

/-! ## `logic/nowplaying.go` -/

/-- The struct `NowPlaying`. -/
structure NowPlaying where
  ImageUrl : String
  TrackName : String
  TrackUrl : String
  AlbumName : String
  AlbumUrl : String
  ArtistName : String
  ArtistUrl : String
  deriving DecidableEq, Repr

/-- The json tags of `NowPlaying` with the values of a struct, in declaration order. -/
def NowPlaying.fields (n : NowPlaying) : List (String × String) :=
  [("imageUrl", n.ImageUrl), ("trackName", n.TrackName), ("trackUrl", n.TrackUrl),
   ("albumName", n.AlbumName), ("albumUrl", n.AlbumUrl),
   ("artistName", n.ArtistName), ("artistUrl", n.ArtistUrl)]

/-- The struct `NowplayingResponse`; `Body` is a `[]byte`, nil when `none`. -/
structure NowplayingResponse where
  Body : Option Bytes
  deriving DecidableEq, Repr

/-- The composite literal `NowPlaying{...}` of `Nowplaying`: its field expressions are
evaluated in order, and the two reads at index 0 fault on an empty slice. -/
def projectNowPlaying (item : Track) : Outcome NowPlaying :=
  match index0 item.Album.Images with
  | .ok image =>
    match index0 item.Artists with
    | .ok artist =>
      .ok { ImageUrl := image.URL
            TrackName := item.Name
            TrackUrl := mapGet item.ExternalURLs "spotify"
            AlbumName := item.Album.Name
            AlbumUrl := mapGet item.Album.ExternalURLs "spotify"
            ArtistName := artist.Name
            ArtistUrl := mapGet artist.ExternalURLs "spotify" }
    | .err e => .err e
    | .fault m => .fault m
    | .hang => .hang
  | .err e => .err e
  | .fault m => .fault m
  | .hang => .hang

/-- The function `Nowplaying`.  Its two calls out of the package are arguments:
`authenticate` is what `auth.Authenticate()` does, and `playerCurrentlyPlaying` is
`client.PlayerCurrentlyPlaying(ctx, spotify.Limit(1))`. -/
def Nowplaying (authenticate : Outcome Client)
    (playerCurrentlyPlaying : Client → Except String CurrentlyPlaying) :
    Outcome NowplayingResponse :=
  match authenticate with
  | .err e => .err e
  | .fault m => .fault m
  | .hang => .hang
  | .ok client =>
    match playerCurrentlyPlaying client with
    | .error e => .err e
    | .ok currentlyPlayingTrack =>
      match currentlyPlayingTrack.Item with
      | none => .ok { Body := none }
      | some item =>
        match projectNowPlaying item with
        | .err e => .err e
        | .fault m => .fault m
        | .hang => .hang
        | .ok nowPlaying =>
          match jsonMarshal nowPlaying.fields with
          | .error e => .err e
          | .ok jsonNowPlaying => .ok { Body := some (utf8 jsonNowPlaying) }

/-! ## `time`: instants in UTC, `Add` and `Format` -/

/-- A `time.Time` whose location is UTC: the instant, as seconds since
1970-01-01T00:00:00Z and nanoseconds within the second.  The seconds are not
bounded here; Go keeps them in an `int64`, which spans 292 billion years
either side of the epoch. -/
structure Time where
  sec : Int
  nsec : Int
  deriving DecidableEq, Repr

/-- The constant `time.Hour`, a `Duration` in nanoseconds. -/
def Hour : Int := 60 * 60 * 1000000000

/-- The method `Time.Add`: the whole seconds of `d` go to the seconds and the rest to
the nanoseconds, with a carry (Go's `/` and `%` truncate toward zero). -/
def Time.Add (t : Time) (d : Int) : Time :=
  let dsec := Int.tdiv d 1000000000
  let nsec := t.nsec + Int.tmod d 1000000000
  if nsec ≥ 1000000000 then { sec := t.sec + (dsec + 1), nsec := nsec - 1000000000 }
  else if nsec < 0 then { sec := t.sec + (dsec - 1), nsec := nsec + 1000000000 }
  else { sec := t.sec + dsec, nsec := nsec }

/-- Leap years of the proleptic Gregorian calendar: `isLeap` of package `time`. -/
def isLeap (year : Int) : Bool :=
  year % 4 == 0 && (year % 100 != 0 || year % 400 == 0)

/-- Year and day within the year (from 0) of the day `day` counted from 1970-01-01,
by whole cycles of 400, 100, 4 and 1 years as in `absDate` of package `time`; the
count starts at 0001-01-01, which is 719162 days before the epoch. -/
def absDate (day : Int) : Int × Int :=
  let d := day + 719162
  let n400 := d / 146097
  let d1 := d % 146097
  let n100 := d1 / 36524
  let n100 := n100 - n100 / 4
  let d2 := d1 - 36524 * n100
  let n4 := d2 / 1461
  let d3 := d2 - 1461 * n4
  let n1 := d3 / 365
  let n1 := n1 - n1 / 4
  let d4 := d3 - 365 * n1
  (1 + 400 * n400 + 100 * n100 + 4 * n4 + n1, d4)

/-- The table `daysBefore` of package `time`: days of a non-leap year before month
`m + 1`. -/
def daysBefore (m : Int) : Int :=
  [0, 31, 59, 90, 120, 151, 181, 212, 243, 273, 304, 334, 365].getD m.toNat 0

/-- Month (from 1) and day of the month (from 1) of the day `yday` of a year, as the
tail of `absDate` computes them: the leap day is singled out, the days after it
are shifted, and `day / 31` estimates the month. -/
def monthDay (leap : Bool) (yday : Int) : Int × Int :=
  if leap && yday == 31 + 29 - 1 then (2, 29)
  else
    let day := if leap && yday > 31 + 29 - 1 then yday - 1 else yday
    let month := day / 31
    let end_ := daysBefore (month + 1)
    if day ≥ end_ then (month + 2, day - end_ + 1)
    else (month + 1, day - daysBefore month + 1)

/-- A date and a wall-clock time. -/
structure Civil where
  year : Int
  month : Int
  day : Int
  hour : Int
  minute : Int
  second : Int
  deriving DecidableEq, Repr

/-- The date and clock of an instant in UTC: what `Time.Date` and `Time.Clock` return. -/
def Time.civil (t : Time) : Civil :=
  let days := t.sec / 86400
  let sod := t.sec % 86400
  let yd := absDate days
  let md := monthDay (isLeap yd.1) yd.2
  { year := yd.1, month := md.1, day := md.2
    hour := sod / 3600, minute := sod % 3600 / 60, second := sod % 60 }

/-- The day within the year (from 1): `Time.YearDay`. -/
def Time.yearDay (t : Time) : Int := (absDate (t.sec / 86400)).2 + 1

/-- The function `appendInt` of package `time`: the decimal digits of `x`, behind a
minus sign when negative and zeros up to `width` digits. -/
def appendInt (x : Int) (width : Nat) : List Char :=
  let digits := Nat.toDigits 10 x.natAbs
  (if x < 0 then ['-'] else []) ++ List.replicate (width - digits.length) '0' ++ digits

/-- The hour on a 12-hour clock. -/
def hour12 (hour : Int) : Int := if hour % 12 = 0 then 12 else hour % 12

/-- The layout verbs that start with a digit: constants `std...` of package `time`. -/
inductive Std where
  | longYear | year | zeroMonth | numMonth | zeroDay | day | zeroYearDay
  | hour | zeroHour12 | hour12 | zeroMinute | minute | zeroSecond | second
  deriving DecidableEq, Repr

/-- The verb at the head of a layout and its length in characters: the cases
`'0'` to `'5'` of `nextStdChunk`. -/
def stdChunk (layout : List Char) : Option (Std × Nat) :=
  match layout with
  | [] => none
  | c :: rest =>
    if c = '0' then
      if rest.take 1 = ['1'] then some (.zeroMonth, 2)
      else if rest.take 1 = ['2'] then some (.zeroDay, 2)
      else if rest.take 1 = ['3'] then some (.zeroHour12, 2)
      else if rest.take 1 = ['4'] then some (.zeroMinute, 2)
      else if rest.take 1 = ['5'] then some (.zeroSecond, 2)
      else if rest.take 1 = ['6'] then some (.year, 2)
      else if rest.take 2 = ['0', '2'] then some (.zeroYearDay, 3)
      else none
    else if c = '1' then
      if rest.take 1 = ['5'] then some (.hour, 2) else some (.numMonth, 1)
    else if c = '2' then
      if rest.take 3 = ['0', '0', '6'] then some (.longYear, 4) else some (.day, 1)
    else if c = '3' then some (.hour12, 1)
    else if c = '4' then some (.minute, 1)
    else if c = '5' then some (.second, 1)
    else none

/-- What `Time.Format` appends for a verb. -/
def Time.field (t : Time) : Std → List Char
  | .longYear => appendInt t.civil.year 4
  | .year => appendInt (Int.ofNat t.civil.year.natAbs % 100) 2
  | .zeroMonth => appendInt t.civil.month 2
  | .numMonth => appendInt t.civil.month 0
  | .zeroDay => appendInt t.civil.day 2
  | .day => appendInt t.civil.day 0
  | .zeroYearDay => appendInt t.yearDay 3
  | .hour => appendInt t.civil.hour 2
  | .zeroHour12 => appendInt (hour12 t.civil.hour) 2
  | .hour12 => appendInt (hour12 t.civil.hour) 0
  | .zeroMinute => appendInt t.civil.minute 2
  | .minute => appendInt t.civil.minute 0
  | .zeroSecond => appendInt t.civil.second 2
  | .second => appendInt t.civil.second 0

/-- The loop of `Time.Format`, for layouts made of the verbs that start with a digit
(`2006 2 01 1 02 002 03 3 04 4 05 5 06 15`) and of text that holds no other
verb: every verb is replaced by its field and the text between verbs is
copied.  `skip` counts the characters of the current verb still to pass.  The
verbs that start with a letter or a sign are not part of this model. -/
def formatLayout (t : Time) : Nat → List Char → List Char
  | _, [] => []
  | skip + 1, _ :: rest => formatLayout t skip rest
  | 0, c :: rest =>
    match stdChunk (c :: rest) with
    | some (v, n) => t.field v ++ formatLayout t (n - 1) rest
    | none => c :: formatLayout t 0 rest

/-- The method `Time.Format`. -/
def Time.Format (t : Time) (layout : String) : String :=
  String.mk (formatLayout t 0 layout.data)

/-! ## `logic/lastplayed.go` -/

/-- One entry of the play history: `spotify.RecentlyPlayedItem`. -/
structure RecentlyPlayedItem where
  Track : Track
  PlayedAt : Time
  deriving DecidableEq, Repr

/-- The struct `LastPlayed`. -/
structure LastPlayed where
  ImageUrl : String
  PlayedAt : String
  TrackName : String
  TrackUrl : String
  AlbumName : String
  AlbumUrl : String
  ArtistName : String
  ArtistUrl : String
  deriving DecidableEq, Repr

/-- The json tags of `LastPlayed` with the values of a struct, in declaration order. -/
def LastPlayed.fields (n : LastPlayed) : List (String × String) :=
  [("imageUrl", n.ImageUrl), ("playedAt", n.PlayedAt), ("trackName", n.TrackName),
   ("trackUrl", n.TrackUrl), ("albumName", n.AlbumName), ("albumUrl", n.AlbumUrl),
   ("artistName", n.ArtistName), ("artistUrl", n.ArtistUrl)]

/-- The struct `LastPlayedResponse`; `Body` is a `[]byte`, nil when `none`. -/
structure LastPlayedResponse where
  Body : Option Bytes
  deriving DecidableEq, Repr

/-- The function `utcTimeToJST`. -/
def utcTimeToJST (t : Time) : Time := t.Add (9 * Hour)

/-- The field expression `utcTimeToJST(...PlayedAt).Format("2006-01-02 15:04:05")`. -/
def playedAtField (t : Time) : String := (utcTimeToJST t).Format "2006-01-02 15:04:05"

/-- The composite literal `LastPlayed{...}` of `Lastplayed`, for the first entry of the
history: its field expressions are evaluated in order, and the two reads at
index 0 fault on an empty slice. -/
def projectLastPlayed (first : RecentlyPlayedItem) : Outcome LastPlayed :=
  match index0 first.Track.Album.Images with
  | .ok image =>
    match index0 first.Track.Artists with
    | .ok artist =>
      .ok { ImageUrl := image.URL
            PlayedAt := playedAtField first.PlayedAt
            TrackName := first.Track.Name
            TrackUrl := mapGet first.Track.ExternalURLs "spotify"
            AlbumName := first.Track.Album.Name
            AlbumUrl := mapGet first.Track.Album.ExternalURLs "spotify"
            ArtistName := artist.Name
            ArtistUrl := mapGet artist.ExternalURLs "spotify" }
    | .err e => .err e
    | .fault m => .fault m
    | .hang => .hang
  | .err e => .err e
  | .fault m => .fault m
  | .hang => .hang

/-- The function `Lastplayed`.  Its two calls out of the package are arguments:
`authenticate` is what `auth.Authenticate()` does, and `playerRecentlyPlayedOpt` is
`client.PlayerRecentlyPlayedOpt(ctx, &spotify.RecentlyPlayedOptions{Limit: 1})`. -/
def Lastplayed (authenticate : Outcome Client)
    (playerRecentlyPlayedOpt : Client → Except String (List RecentlyPlayedItem)) :
    Outcome LastPlayedResponse :=
  match authenticate with
  | .err e => .err e
  | .fault m => .fault m
  | .hang => .hang
  | .ok client =>
    match playerRecentlyPlayedOpt client with
    | .error e => .err e
    | .ok lastPlayedTracks =>
      match lastPlayedTracks with
      | [] => .ok { Body := none }
      | first :: _ =>
        match projectLastPlayed first with
        | .err e => .err e
        | .fault m => .fault m
        | .hang => .hang
        | .ok lastPlayed =>
          match jsonMarshal lastPlayed.fields with
          | .error e => .err e
          | .ok jsonLastPlayed => .ok { Body := some (utf8 jsonLastPlayed) }

/-! ## `handler/api` -/

/-- What a handler wrote to the `echo.Context`. -/
structure HTTPResponse where
  status : Nat
  /-- the Content-Type header is `application/json` -/
  json : Bool
  body : Bytes
  deriving DecidableEq, Repr

/-- The call `c.NoContent(code)`: a status line and no body. -/
def noContent (code : Nat) : HTTPResponse :=
  { status := code, json := false, body := [] }

/-- The call `c.JSONBlob(code, b)`: the bytes `b` written as they are. -/
def jsonBlob (code : Nat) (b : Bytes) : HTTPResponse :=
  { status := code, json := true, body := b }

/-- The handler `getNowplaying`, given what the call `logic.Nowplaying()` does. -/
def getNowplaying (nowplaying : Outcome NowplayingResponse) : Outcome HTTPResponse :=
  match nowplaying with
  | .fault m => .fault m
  | .hang => .hang
  | .err _ => .ok (noContent 400)
  | .ok resp =>
    match resp.Body with
    | none => .ok (noContent 204)
    | some body => .ok (jsonBlob 200 body)

/-- The handler `getLastPlayed`, given what the call `logic.Lastplayed()` does. -/
def getLastPlayed (lastplayed : Outcome LastPlayedResponse) : Outcome HTTPResponse :=
  match lastplayed with
  | .fault m => .fault m
  | .hang => .hang
  | .err _ => .ok (noContent 400)
  | .ok resp =>
    match resp.Body with
    | none => .ok (noContent 204)
    | some body => .ok (jsonBlob 200 body)

/-! ## `net/url`: `Parse` and `URL.Port` -/

/-- The struct `url.URL`, without the hints `RawPath` and `RawFragment`. -/
structure URL where
  Scheme : String := ""
  Opaque : String := ""
  User : Option (String × Option String) := none
  Host : String := ""
  Path : String := ""
  ForceQuery : Bool := false
  RawQuery : String := ""
  Fragment : String := ""
  OmitHost : Bool := false
  deriving DecidableEq, Repr

/-- The call `strings.Cut(s, sep)` for a separator of one byte: the text before and
after the first `sep`, or `none` when `s` does not hold it. -/
def cutAt (sep : Char) : List Char → Option (List Char × List Char)
  | [] => none
  | c :: rest =>
    if c = sep then some ([], rest)
    else match cutAt sep rest with
      | some (before, after) => some (c :: before, after)
      | none => none

/-- The text before and after the last `sep`, as `strings.LastIndex` locates it. -/
def cutAtLast (sep : Char) (s : List Char) : Option (List Char × List Char) :=
  match cutAt sep s.reverse with
  | some (after, before) => some (before.reverse, after.reverse)
  | none => none

/-- The function `stringContainsCTLByte`: a byte below a space, or DEL. -/
def stringContainsCTLByte (s : List Char) : Bool :=
  s.any fun c => c.toNat < 32 || c.toNat == 127

/-- ASCII letters. -/
def isLetter (c : Char) : Bool :=
  ('a'.toNat ≤ c.toNat && c.toNat ≤ 'z'.toNat) || ('A'.toNat ≤ c.toNat && c.toNat ≤ 'Z'.toNat)

/-- ASCII digits. -/
def isDigit (c : Char) : Bool := '0'.toNat ≤ c.toNat && c.toNat ≤ '9'.toNat

/-- The loop of `getScheme` from index `i` on: `seen` holds the bytes before `i` in
reverse, `whole` the URL. -/
def getSchemeLoop (whole : List Char) : List Char → List Char →
    Except String (List Char × List Char)
  | _, [] => .ok ([], whole)
  | seen, c :: rest =>
    if isLetter c then getSchemeLoop whole (c :: seen) rest
    else if isDigit c || c = '+' || c = '-' || c = '.' then
      if seen.isEmpty then .ok ([], whole) else getSchemeLoop whole (c :: seen) rest
    else if c = ':' then
      if seen.isEmpty then .error "missing protocol scheme" else .ok (seen.reverse, rest)
    else .ok ([], whole)

/-- The function `getScheme`: the scheme and what follows its colon. -/
def getScheme (rawURL : List Char) : Except String (List Char × List Char) :=
  getSchemeLoop rawURL [] rawURL

/-- Hexadecimal digits: `ishex`. -/
def ishex (c : Char) : Bool :=
  isDigit c || ('a'.toNat ≤ c.toNat && c.toNat ≤ 'f'.toNat) ||
    ('A'.toNat ≤ c.toNat && c.toNat ≤ 'F'.toNat)

/-- The value of a hexadecimal digit: `unhex`. -/
def unhex (c : Char) : Nat :=
  if isDigit c then c.toNat - '0'.toNat
  else if 'a'.toNat ≤ c.toNat && c.toNat ≤ 'f'.toNat then c.toNat - 'a'.toNat + 10
  else if 'A'.toNat ≤ c.toNat && c.toNat ≤ 'F'.toNat then c.toNat - 'A'.toNat + 10
  else 0

/-- The modes of `unescape` that `Parse` uses. -/
inductive Encoding where
  | encodePath | encodeHost | encodeZone | encodeUserPassword | encodeFragment
  deriving DecidableEq, Repr

/-- The function `shouldEscape(c, encodeHost)`: the bytes a host may not hold. -/
def shouldEscapeHost (c : Char) : Bool :=
  !(isLetter c || isDigit c ||
    c ∈ ['!', '$', '&', '\'', '(', ')', '*', '+', ',', ';', '=', ':', '[', ']', '<', '>', '"'] ||
    c ∈ ['-', '_', '.', '~'])

/-- The function `unescape`: `%XX` becomes the byte it names (here the character of that
code), with the checks of the first pass: a `%` needs two hexadecimal digits;
in a host it may only name a byte from 0x80 on, or be `%25`; in a zone it may
not name a byte a host has to escape, but for a space; and a host or zone may
not hold an ASCII byte that has to be escaped. -/
def unescape (mode : Encoding) : List Char → Except String (List Char)
  | [] => .ok []
  | c :: rest =>
    if c = '%' then
      match rest with
      | a :: b :: rest2 =>
        if ishex a && ishex b then
          if mode = .encodeHost && unhex a < 8 && !(a = '2' && b = '5') then
            .error "invalid URL escape"
          else if mode = .encodeZone && !(a = '2' && b = '5') &&
              unhex a * 16 + unhex b != 32 &&
              shouldEscapeHost (Char.ofNat (unhex a * 16 + unhex b)) then
            .error "invalid URL escape"
          else
            match unescape mode rest2 with
            | .ok out => .ok (Char.ofNat (unhex a * 16 + unhex b) :: out)
            | .error e => .error e
        else .error "invalid URL escape"
      | _ => .error "invalid URL escape"
    else if (mode = .encodeHost || mode = .encodeZone) && c.toNat < 128 &&
        shouldEscapeHost c then
      .error "invalid character in host name"
    else
      match unescape mode rest with
      | .ok out => .ok (c :: out)
      | .error e => .error e

/-- The function `validOptionalPort`: empty, or a colon and digits. -/
def validOptionalPort (port : List Char) : Bool :=
  match port with
  | [] => true
  | c :: digits => c = ':' && digits.all isDigit

/-- The function `validUserinfo`. -/
def validUserinfo (s : List Char) : Bool :=
  s.all fun r => isLetter r || isDigit r ||
    r ∈ ['-', '.', '_', ':', '~', '!', '$', '&', '\'', '(', ')', '*', '+', ',', ';', '=', '%', '@']

/-- Where `strings.Index(s, "%25")` finds the zone of an IP literal. -/
def cutAtZone : List Char → Option (List Char × List Char)
  | [] => none
  | c :: rest =>
    if (c :: rest).take 3 = ['%', '2', '5'] then some ([], c :: rest)
    else match cutAtZone rest with
      | some (before, after) => some (c :: before, after)
      | none => none

/-- The function `parseHost`: the check of the port behind the host, and the host
unescaped. -/
def parseHost (host : List Char) : Except String (List Char) :=
  if host.take 1 = ['['] then
    match cutAtLast ']' host with
    | none => .error "missing ']' in host"
    | some (literal, colonPort) =>
      if !validOptionalPort colonPort then .error "invalid port after host"
      else
        match cutAtZone literal with
        | some (host1, zone) =>
          match unescape .encodeHost host1 with
          | .error e => .error e
          | .ok host1 =>
            match unescape .encodeZone zone with
            | .error e => .error e
            | .ok host2 =>
              match unescape .encodeHost (']' :: colonPort) with
              | .error e => .error e
              | .ok host3 => .ok (host1 ++ host2 ++ host3)
        | none => unescape .encodeHost host
  else
    match cutAtLast ':' host with
    | some (_, port) =>
      if !validOptionalPort (':' :: port) then .error "invalid port after host"
      else unescape .encodeHost host
    | none => unescape .encodeHost host

/-- The function `parseAuthority`: the user and the host of `[user[:password]@]host`. -/
def parseAuthority (authority : List Char) :
    Except String (Option (String × Option String) × List Char) :=
  match cutAtLast '@' authority with
  | none =>
    match parseHost authority with
    | .error e => .error e
    | .ok host => .ok (none, host)
  | some (userinfo, hostPart) =>
    match parseHost hostPart with
    | .error e => .error e
    | .ok host =>
      if !validUserinfo userinfo then .error "net/url: invalid userinfo"
      else
        match cutAt ':' userinfo with
        | none =>
          match unescape .encodeUserPassword userinfo with
          | .error e => .error e
          | .ok user => .ok (some (String.mk user, none), host)
        | some (username, password) =>
          match unescape .encodeUserPassword username with
          | .error e => .error e
          | .ok username =>
            match unescape .encodeUserPassword password with
            | .error e => .error e
            | .ok password => .ok (some (String.mk username, some (String.mk password)), host)

/-- The step of `parse` that takes the query off: a lone `?` at the end only forces
an empty query; otherwise the query is what follows the first `?`.  The result
holds `ForceQuery`, the rest and `RawQuery`. -/
def splitQuery (rest : List Char) : Bool × List Char × List Char :=
  if rest.getLast? = some '?' && rest.count '?' = 1 then (true, rest.dropLast, [])
  else match cutAt '?' rest with
    | some (before, after) => (false, before, after)
    | none => (false, rest, [])

/-- The steps of `parse` behind the query: an opaque URL, a relative path, or an
authority and a path. -/
def parseHierarchy (scheme : List Char) (forceQuery : Bool) (rest rawQuery : List Char) :
    Except String URL :=
  if rest.take 1 ≠ ['/'] && !scheme.isEmpty then
    .ok { Scheme := String.mk scheme, Opaque := String.mk rest, ForceQuery := forceQuery
          RawQuery := String.mk rawQuery }
  else if rest.take 1 ≠ ['/'] &&
      ((match cutAt '/' rest with
        | some (segment, _) => segment
        | none => rest).contains ':') then
    .error "first path segment in URL cannot contain colon"
  else if (!scheme.isEmpty || rest.take 3 ≠ ['/', '/', '/']) && rest.take 2 = ['/', '/'] then
    let authority := rest.drop 2
    let authorityRest : List Char × List Char :=
      match cutAt '/' authority with
      | some (before, after) => (before, '/' :: after)
      | none => (authority, [])
    match parseAuthority authorityRest.1 with
    | .error e => .error e
    | .ok (user, host) =>
      match unescape .encodePath authorityRest.2 with
      | .error e => .error e
      | .ok path =>
        .ok { Scheme := String.mk scheme, User := user, Host := String.mk host
              Path := String.mk path, ForceQuery := forceQuery
              RawQuery := String.mk rawQuery }
  else
    match unescape .encodePath rest with
    | .error e => .error e
    | .ok path =>
      .ok { Scheme := String.mk scheme, Path := String.mk path, ForceQuery := forceQuery
            RawQuery := String.mk rawQuery
            OmitHost := !scheme.isEmpty && rest.take 1 = ['/'] }

/-- The function `parse(rawURL, false)` of package `net/url`. -/
def parseNoFragment (rawURL : List Char) : Except String URL :=
  if stringContainsCTLByte rawURL then .error "net/url: invalid control character in URL"
  else if rawURL = ['*'] then .ok { Path := "*" }
  else
    match getScheme rawURL with
    | .error e => .error e
    | .ok (scheme, rest) =>
      let query := splitQuery rest
      parseHierarchy (scheme.map Char.toLower) query.1 query.2.1 query.2.2

/-- The function `url.Parse`: the fragment is cut off and unescaped, the rest goes to
`parse`.  On an error Go returns a nil `*URL` with it. -/
def urlParse (rawURL : String) : Except String URL :=
  let uFrag : List Char × List Char :=
    match cutAt '#' rawURL.data with
    | some (u, frag) => (u, frag)
    | none => (rawURL.data, [])
  match parseNoFragment uFrag.1 with
  | .error e => .error e
  | .ok url =>
    if uFrag.2.isEmpty then .ok url
    else
      match unescape .encodeFragment uFrag.2 with
      | .error e => .error e
      | .ok frag => .ok { url with Fragment := String.mk frag }

/-- The function `splitHostPort`: the port is what follows the last colon when that is
a valid port; the brackets of an IP literal are taken off the host. -/
def splitHostPort (hostPort : List Char) : List Char × List Char :=
  let hp : List Char × List Char :=
    match cutAtLast ':' hostPort with
    | some (host, port) =>
      if validOptionalPort (':' :: port) then (host, port) else (hostPort, [])
    | none => (hostPort, [])
  if hp.1.take 1 = ['['] && hp.1.getLast? = some ']' then ((hp.1.drop 1).dropLast, hp.2)
  else hp

/-- The method `URL.Port`. -/
def URL.Port (u : URL) : String := String.mk (splitHostPort u.Host.data).2

/-! ## `auth/spotify.go`: `getPortFromUri` -/

/-- The function `getPortFromUri`.  The error of `url.Parse` is dropped and the method
`Port` is called on the pointer that came back, which is nil after an error:
the read of `u.Host` then faults.  The error returned is always nil. -/
def getPortFromUri (uri : String) : Outcome String :=
  match urlParse uri with
  | .ok u => .ok u.Port
  | .error _ => .fault "invalid memory address or nil pointer dereference"

/-! ## `net/http` and the OAuth library, as `Authenticate` uses them -/

/-- A request to the callback listener: the parameters of its URL and those of its
body, each in the order they were written. -/
structure Request where
  method : String := "GET"
  query : List (String × String) := []
  postForm : List (String × String) := []
  deriving DecidableEq, Repr

/-- The method `url.Values.Get`: the first value of a key, or the empty string. -/
def valuesGet (values : List (String × String)) (key : String) : String :=
  (values.lookup key).getD ""

/-- The method `Request.FormValue`: the first value of a key, the parameters of the body
before those of the URL. -/
def Request.FormValue (r : Request) (key : String) : String :=
  valuesGet (r.postForm ++ r.query) key

/-- The method `Authenticator.Token` of `github.com/zmb3/spotify/v2/auth`: it reads the
parameters of the URL, refuses an `error` parameter, a missing code and a
state other than the expected one, and exchanges the code for a token;
`exchange` is the call `config.Exchange(ctx, code)` to the provider. -/
def authenticatorToken (exchange : String → Except String Token) (state : String)
    (r : Request) : Except String Token :=
  if valuesGet r.query "error" ≠ "" then
    .error ("spotify: auth failed - " ++ valuesGet r.query "error")
  else if valuesGet r.query "code" = "" then .error "spotify: didn't get access code"
  else if valuesGet r.query "state" ≠ state then
    .error "spotify: redirect state parameter doesn't match"
  else exchange (valuesGet r.query "code")

/-- The function `spotify.New`: it allocates a client, so its result is never nil. -/
def spotifyNew (authenticator : Authenticator) (tok : Token) : Option Client :=
  some { authenticator := authenticator, token := tok }

/-- What a handler of the callback listener did: the status and body it wrote (200 and
nothing when it wrote nothing) and the client it sent on the channel. -/
structure CallbackResult where
  status : Nat
  body : String
  sent : Option Client
  deriving DecidableEq, Repr

/-- What `Authenticate` does to the process, in order. -/
inductive Event where
  /-- the call `randstr.Hex(11)` returned this state -/
  | nonce : String → Event
  /-- the call `http.HandleFunc(pattern, ...)` registered a route -/
  | handleFunc : String → Event
  /-- a goroutine was started on `http.ListenAndServe(addr, nil)` -/
  | listenAndServe : String → Event
  /-- the goroutine of the caller blocked on `<-channel` -/
  | receive : Event
  deriving DecidableEq, Repr

/-- The state of the process that `Authenticate` reads and writes: the patterns
registered on `http.DefaultServeMux`, the addresses of the listeners started,
and the log of what happened. -/
structure Process where
  mux : List String := []
  listeners : List String := []
  log : List Event := []
  deriving DecidableEq, Repr

/-- The variables of the environment that `Authenticate` reads. -/
structure Env where
  SPOTIFY_ID : String := ""
  SPOTIFY_SECRET : String := ""
  SPOTIFY_REDIRECT_URI : String := ""
  SPOTIFY_REFRESH_TOKEN : String := ""
  deriving DecidableEq, Repr

/-- The function `http.HandleFunc` on the default mux: registering a pattern twice is a
run-time fault of `ServeMux.Handle`. -/
def handleFunc (pattern : String) (p : Process) : Except String Process :=
  if pattern ∈ p.mux then .error ("http: multiple registrations for " ++ pattern)
  else .ok { p with mux := p.mux ++ [pattern], log := p.log ++ [.handleFunc pattern] }

/-! ## `auth/spotify.go`: `Authenticate` -/

/-- The function `refresh`. -/
def refresh (authenticator : Authenticator) (refreshToken : String) : Outcome Client :=
  let tok : Token := { TokenType := "bearer", RefreshToken := refreshToken }
  match spotifyNew authenticator tok with
  | none => .err "failed to create client"
  | some client => .ok client

/-- The authenticator that `Authenticate` builds with `spotifyauth.New`. -/
def newAuthenticator (env : Env) : Authenticator :=
  { Scopes := ["user-follow-read", "user-follow-modify", "user-library-read",
      "user-library-modify"]
    ClientID := env.SPOTIFY_ID
    ClientSecret := env.SPOTIFY_SECRET
    RedirectURL := env.SPOTIFY_REDIRECT_URI }

/-- The handler that `Authenticate` registers on `/callback`, for the state and the
authenticator of the call; `token` is the method `authenticator.Token`. -/
def callbackHandler (token : String → Request → Except String Token)
    (authenticator : Authenticator) (state : String) (r : Request) : CallbackResult :=
  match token state r with
  | .error _ => { status := 500, body := "failed to get token\n", sent := none }
  | .ok tok =>
    if r.FormValue "state" ≠ state then
      { status := 404, body := "404 page not found\n", sent := none }
    else
      { status := 200, body := "", sent := spotifyNew authenticator tok }

/-- The function `Authenticate`, as a step on the state of the process.  `state` is what
`randstr.Hex(11)` returns in this call, and `delivered` what the receive from
the channel yields: the client that a run of the callback handler sends, or
nothing when no run ever sends one, in which case the caller waits forever. -/
def Authenticate (env : Env) (state : String) (delivered : Option Client) (p : Process) :
    Process × Outcome Client :=
  match getPortFromUri env.SPOTIFY_REDIRECT_URI with
  | .err e => (p, .err e)
  | .fault m => (p, .fault m)
  | .hang => (p, .hang)
  | .ok port =>
    let p := { p with log := p.log ++ [.nonce state] }
    let authenticator := newAuthenticator env
    if env.SPOTIFY_REFRESH_TOKEN ≠ "" then
      (p, refresh authenticator env.SPOTIFY_REFRESH_TOKEN)
    else
      match handleFunc "/callback" p with
      | .error m => (p, .fault m)
      | .ok p =>
        match handleFunc "/" p with
        | .error m => (p, .fault m)
        | .ok p =>
          let p := { p with listeners := p.listeners ++ [":" ++ port]
                            log := p.log ++ [.listenAndServe (":" ++ port), .receive] }
          match delivered with
          | some client => (p, .ok client)
          | none => (p, .hang)

/-! ## Reference definitions: the calendar in the words of the specification -/

/-- Days of a month of the Gregorian calendar. -/
def daysInMonth (leap : Bool) (month : Int) : Int :=
  if month = 2 then (if leap then 29 else 28)
  else if month = 4 ∨ month = 6 ∨ month = 9 ∨ month = 11 then 30
  else 31

/-- The day after a date, rolling over the month and the year. -/
def Civil.nextDay (c : Civil) : Civil :=
  if c.day < daysInMonth (isLeap c.year) c.month then { c with day := c.day + 1 }
  else if c.month < 12 then { c with month := c.month + 1, day := 1 }
  else { c with year := c.year + 1, month := 1, day := 1 }

/-- A date and time nine hours later, rolling over the day. -/
def Civil.plusNineHours (c : Civil) : Civil :=
  if c.hour + 9 < 24 then { c with hour := c.hour + 9 }
  else { c.nextDay with hour := c.hour + 9 - 24 }

/-- The decimal digit of a number below ten. -/
def digitChar (n : Int) : Char := Nat.digitChar n.toNat

/-- A number below 100 on two digits. -/
def twoDigits (n : Int) : List Char := [digitChar (n / 10), digitChar (n % 10)]

/-- A number below 10000 on four digits. -/
def fourDigits (n : Int) : List Char :=
  [digitChar (n / 1000), digitChar (n / 100 % 10), digitChar (n / 10 % 10), digitChar (n % 10)]

/-- A date and time written `YYYY-MM-DD HH:MM:SS`. -/
def Civil.stamp (c : Civil) : String :=
  String.mk (fourDigits c.year ++ '-' :: twoDigits c.month ++ '-' :: twoDigits c.day ++
    ' ' :: twoDigits c.hour ++ ':' :: twoDigits c.minute ++ ':' :: twoDigits c.second)

/-! ## Reference definitions: JSON text after RFC 8259 and UTF-8 after RFC 3629 -/

/-- The characters that stand for themselves in a string of `json.Marshal`: all but the
control characters below U+0020, the quotation mark and the backslash, which
RFC 8259 has escaped, and `<`, `>`, `&`, U+2028 and U+2029, which
`json.Marshal` escapes for HTML. -/
def jsonPlainChar (c : Char) : Prop :=
  32 ≤ c.toNat ∧ c ≠ '"' ∧ c ≠ '\\' ∧ c ≠ '<' ∧ c ≠ '>' ∧ c ≠ '&' ∧
    c.toNat ≠ 0x2028 ∧ c.toNat ≠ 0x2029

instance (c : Char) : Decidable (jsonPlainChar c) := by
  unfold jsonPlainChar; infer_instance

/-- The value of a hexadecimal digit. -/
def hexValue (c : Char) : Option Nat :=
  if '0'.toNat ≤ c.toNat ∧ c.toNat ≤ '9'.toNat then some (c.toNat - '0'.toNat)
  else if 'a'.toNat ≤ c.toNat ∧ c.toNat ≤ 'f'.toNat then some (c.toNat - 'a'.toNat + 10)
  else if 'A'.toNat ≤ c.toNat ∧ c.toNat ≤ 'F'.toNat then some (c.toNat - 'A'.toNat + 10)
  else none

/-- The character that a two-character escape of JSON stands for. -/
def jsonSimpleEscape (e : Char) : Option Char :=
  if e = '"' then some '"'
  else if e = '\\' then some '\\'
  else if e = '/' then some '/'
  else if e = 'b' then some (Char.ofNat 8)
  else if e = 'f' then some (Char.ofNat 12)
  else if e = 'n' then some '\n'
  else if e = 'r' then some '\r'
  else if e = 't' then some '\t'
  else none

/-- Where the reader of a JSON string stands: in plain text, behind a backslash, or
in an escape of four hexadecimal digits, with the digits still to come and the
value of those read. -/
inductive ReadState where
  | plain : ReadState
  | escape : ReadState
  | hex : Nat → Nat → ReadState
  deriving DecidableEq, Repr

/-- A character put in front of what the reader returns. -/
def consRead (c : Char) : Option (List Char × List Char) → Option (List Char × List Char)
  | some (chars, after) => some (c :: chars, after)
  | none => none

/-- The characters of a JSON string and the text behind its closing quote, read from a
state: plain characters from U+0020 on stand for themselves, a backslash
starts an escape of two characters or of `u` and four hexadecimal digits, and
the quote ends the string. -/
def jsonReadStringFrom : ReadState → List Char → Option (List Char × List Char)
  | _, [] => none
  | .plain, c :: rest =>
    if c = '"' then some ([], rest)
    else if c = '\\' then jsonReadStringFrom .escape rest
    else if c.toNat < 32 then none
    else consRead c (jsonReadStringFrom .plain rest)
  | .escape, e :: rest =>
    if e = 'u' then jsonReadStringFrom (.hex 4 0) rest
    else
      match jsonSimpleEscape e with
      | some ch => consRead ch (jsonReadStringFrom .plain rest)
      | none => none
  | .hex 0 _, _ :: _ => none
  | .hex (k + 1) acc, h :: rest =>
    match hexValue h with
    | none => none
    | some d =>
      if k = 0 then consRead (Char.ofNat (acc * 16 + d)) (jsonReadStringFrom .plain rest)
      else jsonReadStringFrom (.hex k (acc * 16 + d)) rest

/-- The characters of a JSON string and the text behind its closing quote, read from
behind the opening quote. -/
def jsonReadString (text : List Char) : Option (List Char × List Char) :=
  jsonReadStringFrom .plain text

/-- A JSON string literal at the head of a text, and the text behind it. -/
def jsonReadLiteral (text : List Char) : Option (String × List Char) :=
  match text with
  | [] => none
  | c :: rest =>
    if c = '"' then
      match jsonReadString rest with
      | some (chars, after) => some (String.mk chars, after)
      | none => none
    else none

/-- The members `"key":"value"` of a JSON object, separated by commas, up to the
closing brace, and the text behind it; `fuel` bounds their number. -/
def jsonReadMembers : Nat → List Char → Option (List (String × String) × List Char)
  | 0, _ => none
  | fuel + 1, text =>
    match jsonReadLiteral text with
    | none => none
    | some (key, rest) =>
      match rest with
      | [] => none
      | c :: rest =>
        if c = ':' then
          match jsonReadLiteral rest with
          | none => none
          | some (value, rest) =>
            match rest with
            | [] => none
            | d :: rest =>
              if d = ',' then
                match jsonReadMembers fuel rest with
                | some (members, after) => some ((key, value) :: members, after)
                | none => none
              else if d = '}' then some ([(key, value)], rest)
              else none
        else none

/-- The members of a text that is one JSON object with string values and no white
space, in their order. -/
def jsonParseObject (text : String) : Option (List (String × String)) :=
  match text.data with
  | [] => none
  | c :: rest =>
    if c = '{' then
      if rest = ['}'] then some []
      else
        match jsonReadMembers text.length rest with
        | some (members, []) => some members
        | _ => none
    else none

/-- The decoder of UTF-8 after RFC 3629, one byte at a time: `need` continuation bytes
are still to come for the character whose bits read so far are `acc`, and
`low` is the least code that may take that many bytes.  Bytes that start no
character, stray or missing continuation bytes, overlong forms and codes that
are no character are refused. -/
def utf8DecodeAux : Nat → Nat → Nat → Bytes → Option (List Char)
  | 0, _, _, [] => some []
  | _ + 1, _, _, [] => none
  | 0, _, _, b :: rest =>
    if b.toNat < 128 then (utf8DecodeAux 0 0 0 rest).map (Char.ofNat b.toNat :: ·)
    else if 192 ≤ b.toNat ∧ b.toNat < 224 then utf8DecodeAux 1 (b.toNat - 192) 128 rest
    else if 224 ≤ b.toNat ∧ b.toNat < 240 then utf8DecodeAux 2 (b.toNat - 224) 2048 rest
    else if 240 ≤ b.toNat ∧ b.toNat < 248 then utf8DecodeAux 3 (b.toNat - 240) 65536 rest
    else none
  | k + 1, acc, low, b :: rest =>
    if 128 ≤ b.toNat ∧ b.toNat < 192 then
      if k = 0 then
        if low ≤ acc * 64 + (b.toNat - 128) ∧ Nat.isValidChar (acc * 64 + (b.toNat - 128)) then
          (utf8DecodeAux 0 0 0 rest).map (Char.ofNat (acc * 64 + (b.toNat - 128)) :: ·)
        else none
      else utf8DecodeAux k (acc * 64 + (b.toNat - 128)) low rest
    else none

/-- The text that a sequence of bytes encodes in UTF-8, if it is well formed. -/
def utf8Decode (b : Bytes) : Option String := (utf8DecodeAux 0 0 0 b).map String.mk

/-! ## Shapes of redirect URIs, for the statement about ports -/

/-- A character of a scheme after the first: a letter, a digit, `+`, `-` or `.`. -/
def schemeChar (c : Char) : Bool := isLetter c || isDigit c || c = '+' || c = '-' || c = '.'

/-- A character of a host name that is neither an IP literal nor escaped: not a colon,
not a bracket, not a control character, and not one `url.Parse` refuses in a
host (so none of `/ ? # @ %` either). -/
def hostChar (c : Char) : Bool :=
  c ≠ ':' && c ≠ '[' && !(c.toNat < 32 || c.toNat == 127) &&
    (128 ≤ c.toNat || !shouldEscapeHost c)

/-- A character of a path that is not escaped: not `#`, `?` or `%`, and not a control
character. -/
def pathChar (c : Char) : Bool :=
  c ≠ '#' && c ≠ '?' && c ≠ '%' && !(c.toNat < 32 || c.toNat == 127)

/-- A character of a query: not `#` and not a control character. -/
def queryChar (c : Char) : Bool := c ≠ '#' && !(c.toNat < 32 || c.toNat == 127)

/-- The URI `scheme://host:port` followed by `path` and by `query`, which is empty or
starts with its `?`. -/
def uriOf (scheme host port path query : List Char) : String :=
  String.mk (scheme ++ ':' :: '/' :: '/' :: host ++ ':' :: port ++ path ++ query)

/-! ## Sample data -/

/-- The track of the specification's example: image `X`, track `T` at `U`, album `A` at
`AU`, artist `AR` at `ARU`. -/
def sampleTrack : Track :=
  { Name := "T"
    ExternalURLs := [("spotify", "U")]
    Album := { Name := "A", Images := [{ Height := 640, Width := 640, URL := "X" }],
               ExternalURLs := [("spotify", "AU")] }
    Artists := [{ Name := "AR", ExternalURLs := [("spotify", "ARU")] }] }

/-- A track whose album has no image, as Spotify reports a local file. -/
def trackWithoutImage : Track :=
  { sampleTrack with Album := { Name := "A", Images := [], ExternalURLs := [] } }

/-- A track whose name and URL hold characters that a JSON string escapes. -/
def escapedTrack : Track :=
  { sampleTrack with Name := "say \"hi\" & <go>\n", ExternalURLs := [("spotify", "U\\1")] }

/-- An entry of the play history: the sample track, played at 2024-01-01T00:00:00Z. -/
def sampleHistoryItem : RecentlyPlayedItem :=
  { Track := sampleTrack, PlayedAt := { sec := 1704067200, nsec := 0 } }

/-- An entry of the play history: the sample track, played at 9999-12-31T15:00:00Z. -/
def lateHistoryItem : RecentlyPlayedItem :=
  { Track := sampleTrack, PlayedAt := { sec := 253402268400, nsec := 0 } }

/-- A client, for the examples. -/
def sampleClient : Client := { token := { TokenType := "bearer", RefreshToken := "r" } }

/-- A configuration for the interactive flow: no refresh token. -/
def interactiveEnv : Env :=
  { SPOTIFY_ID := "id", SPOTIFY_SECRET := "secret"
    SPOTIFY_REDIRECT_URI := "http://localhost:8080/callback" }

/-- A configuration with a refresh token and a redirect URI whose port is not a number. -/
def malformedEnv : Env :=
  { SPOTIFY_ID := "id", SPOTIFY_SECRET := "secret"
    SPOTIFY_REDIRECT_URI := "http://localhost:abc/callback", SPOTIFY_REFRESH_TOKEN := "r" }

/-- A callback request whose state is not the one of the handshake. -/
def forgedCallback : Request :=
  { query := [("code", "c"), ("state", "forged")] }

/-! ## Auxiliary definitions for the calendar proofs -/

/-- Days of a year. -/
def yearLen (y : Int) : Int := if isLeap y then 366 else 365

/-- Days from 0001-01-01 to the first day of year `y`. -/
def daysBeforeYear (y : Int) : Int :=
  365 * (y - 1) + (y - 1) / 4 - (y - 1) / 100 + (y - 1) / 400

/-- A date and time as `Format` writes the layout `2006-01-02 15:04:05`: every field
on at least its width, the year behind a minus sign when negative. -/
def Civil.write (c : Civil) : String :=
  String.mk (appendInt c.year 4 ++ '-' :: appendInt c.month 2 ++ '-' :: appendInt c.day 2 ++
    ' ' :: appendInt c.hour 2 ++ ':' :: appendInt c.minute 2 ++ ':' :: appendInt c.second 2)

/-- A `time.Time` keeps its nanoseconds within one second. -/
def Time.wellFormed (t : Time) : Prop := 0 ≤ t.nsec ∧ t.nsec < 1000000000

/-! ## The calendar: `absDate` counts days as the Gregorian calendar does -/

theorem yearLen_eq (y : Int) :
    yearLen y = if (y % 4 = 0 ∧ (y % 100 ≠ 0 ∨ y % 400 = 0)) then 366 else 365 := by
  simp [yearLen, isLeap]

theorem daysBeforeYear_succ (y : Int) :
    daysBeforeYear (y + 1) = daysBeforeYear y + yearLen y := by
  rw [yearLen_eq]; unfold daysBeforeYear
  split <;> omega

theorem daysBeforeYear_mono (y z : Int) (h : y < z) :
    daysBeforeYear y + yearLen y ≤ daysBeforeYear z := by
  rw [yearLen_eq]; unfold daysBeforeYear
  split <;> omega

set_option maxHeartbeats 4000000 in
theorem cycles_spec (n400 d1 q100 n4 q1 : Int) (h0 : 0 ≤ d1) (h1 : d1 < 146097)
    (hq100 : q100 = d1 / 36524)
    (hn4 : n4 = (d1 - 36524 * (q100 - q100 / 4)) / 1461)
    (hq1 : q1 = (d1 - 36524 * (q100 - q100 / 4) - 1461 * n4) / 365) :
    146097 * n400 + d1 =
        daysBeforeYear (1 + 400 * n400 + 100 * (q100 - q100 / 4) + 4 * n4 + (q1 - q1 / 4)) +
          (d1 - 36524 * (q100 - q100 / 4) - 1461 * n4 - 365 * (q1 - q1 / 4)) ∧
      0 ≤ d1 - 36524 * (q100 - q100 / 4) - 1461 * n4 - 365 * (q1 - q1 / 4) ∧
      d1 - 36524 * (q100 - q100 / 4) - 1461 * n4 - 365 * (q1 - q1 / 4) <
        yearLen (1 + 400 * n400 + 100 * (q100 - q100 / 4) + 4 * n4 + (q1 - q1 / 4)) := by
  rw [yearLen_eq]; unfold daysBeforeYear
  have hq : q100 = 0 ∨ q100 = 1 ∨ q100 = 2 ∨ q100 = 3 ∨ q100 = 4 := by omega
  rcases hq with rfl | rfl | rfl | rfl | rfl <;> norm_num at hn4 hq1 ⊢ <;>
    (have hq : q1 = 0 ∨ q1 = 1 ∨ q1 = 2 ∨ q1 = 3 ∨ q1 = 4 := by omega) <;>
    rcases hq with rfl | rfl | rfl | rfl | rfl <;> norm_num at hq1 ⊢ <;>
    split <;> omega

/-- The year and day of `absDate` locate the day in the Gregorian count of days. -/
theorem absDate_spec (day : Int) :
    day + 719162 = daysBeforeYear (absDate day).1 + (absDate day).2 ∧
      0 ≤ (absDate day).2 ∧ (absDate day).2 < yearLen (absDate day).1 := by
  have h1 := Int.emod_nonneg (day + 719162) (by decide : (146097 : Int) ≠ 0)
  have h2 := Int.emod_lt_of_pos (day + 719162) (by decide : (0 : Int) < 146097)
  have h3 := Int.ediv_add_emod (day + 719162) 146097
  have := cycles_spec ((day + 719162) / 146097) _ _ _ _ h1 h2 rfl rfl rfl
  rw [h3] at this
  exact this

/-- A day of the count lies in one year only. -/
theorem daysBeforeYear_unique (y z a b : Int) (h : daysBeforeYear y + a = daysBeforeYear z + b)
    (ha : 0 ≤ a) (ha' : a < yearLen y) (hb : 0 ≤ b) (hb' : b < yearLen z) :
    y = z ∧ a = b := by
  rcases lt_trichotomy y z with hlt | heq | hgt
  · have := daysBeforeYear_mono y z hlt; omega
  · subst heq; exact ⟨rfl, by omega⟩
  · have := daysBeforeYear_mono z y hgt; omega

/-- The day after: the next day of the year, or the first day of the next year. -/
theorem absDate_succ (day : Int) :
    absDate (day + 1) =
      if (absDate day).2 + 1 < yearLen (absDate day).1
      then ((absDate day).1, (absDate day).2 + 1)
      else ((absDate day).1 + 1, 0) := by
  obtain ⟨e1, p1, l1⟩ := absDate_spec day
  obtain ⟨e2, p2, l2⟩ := absDate_spec (day + 1)
  have hpos : ∀ y, 0 < yearLen y := by
    intro y; unfold yearLen; split <;> decide
  split
  · rename_i hlt
    have := daysBeforeYear_unique (absDate (day + 1)).1 (absDate day).1 (absDate (day + 1)).2
      ((absDate day).2 + 1) (by omega) p2 l2 (by omega) hlt
    exact Prod.ext this.1 this.2
  · rename_i hge
    have hs := daysBeforeYear_succ (absDate day).1
    have := daysBeforeYear_unique (absDate (day + 1)).1 ((absDate day).1 + 1)
      (absDate (day + 1)).2 0 (by omega) p2 l2 (le_refl 0) (hpos _)
    exact Prod.ext this.1 this.2

set_option maxRecDepth 100000 in
theorem monthDay_step_fin :
    ∀ (leap : Bool) (n : Fin 366), (n.val : Int) + 1 < (if leap then 366 else 365) →
      monthDay leap ((n.val : Int) + 1) =
        if (monthDay leap n.val).2 < daysInMonth leap (monthDay leap n.val).1
        then ((monthDay leap n.val).1, (monthDay leap n.val).2 + 1)
        else ((monthDay leap n.val).1 + 1, 1) := by
  decide

set_option maxRecDepth 100000 in
theorem monthDay_last_fin :
    ∀ (leap : Bool) (n : Fin 366), (n.val : Int) + 1 = (if leap then 366 else 365) →
      monthDay leap n.val = (12, 31) := by
  decide

set_option maxRecDepth 100000 in
theorem monthDay_range_fin :
    ∀ (leap : Bool) (n : Fin 366), (n.val : Int) < (if leap then 366 else 365) →
      1 ≤ (monthDay leap n.val).1 ∧ (monthDay leap n.val).1 ≤ 12 ∧
        1 ≤ (monthDay leap n.val).2 ∧
        (monthDay leap n.val).2 ≤ daysInMonth leap (monthDay leap n.val).1 := by
  decide

theorem monthDay_zero (leap : Bool) : monthDay leap 0 = (1, 1) := by
  cases leap <;> decide

theorem int_as_fin366 (yd : Int) (h0 : 0 ≤ yd) (h1 : yd < 366) :
    ∃ n : Fin 366, (n.val : Int) = yd :=
  ⟨⟨yd.toNat, by omega⟩, by simp [Int.toNat_of_nonneg h0]⟩

/-- Within a year, the day after a date is the next day of the month or the first day
of the next month. -/
theorem monthDay_step (leap : Bool) (yd : Int) (h0 : 0 ≤ yd)
    (h1 : yd + 1 < (if leap then 366 else 365)) :
    monthDay leap (yd + 1) =
      if (monthDay leap yd).2 < daysInMonth leap (monthDay leap yd).1
      then ((monthDay leap yd).1, (monthDay leap yd).2 + 1)
      else ((monthDay leap yd).1 + 1, 1) := by
  obtain ⟨n, rfl⟩ := int_as_fin366 yd h0 (by split at h1 <;> omega)
  exact monthDay_step_fin leap n h1

/-- The last day of a year is the 31st of December. -/
theorem monthDay_last (leap : Bool) (yd : Int) (h0 : 0 ≤ yd)
    (h1 : yd + 1 = (if leap then 366 else 365)) : monthDay leap yd = (12, 31) := by
  obtain ⟨n, rfl⟩ := int_as_fin366 yd h0 (by split at h1 <;> omega)
  exact monthDay_last_fin leap n h1

/-- The month and day of `monthDay` form a date of the calendar. -/
theorem monthDay_range (leap : Bool) (yd : Int) (h0 : 0 ≤ yd)
    (h1 : yd < (if leap then 366 else 365)) :
    1 ≤ (monthDay leap yd).1 ∧ (monthDay leap yd).1 ≤ 12 ∧ 1 ≤ (monthDay leap yd).2 ∧
      (monthDay leap yd).2 ≤ daysInMonth leap (monthDay leap yd).1 := by
  obtain ⟨n, rfl⟩ := int_as_fin366 yd h0 (by split at h1 <;> omega)
  exact monthDay_range_fin leap n h1

/-- The date one day later is the next date of the calendar. -/
theorem civil_add_day (t : Time) :
    ({ sec := t.sec + 86400, nsec := t.nsec } : Time).civil = t.civil.nextDay := by
  have hd : (t.sec + 86400) / 86400 = t.sec / 86400 + 1 := by omega
  have hm : (t.sec + 86400) % 86400 = t.sec % 86400 := by omega
  obtain ⟨-, p1, l1⟩ := absDate_spec (t.sec / 86400)
  have hs := absDate_succ (t.sec / 86400)
  simp only [Time.civil, Civil.nextDay, hd, hm]
  generalize absDate (t.sec / 86400) = a at *
  obtain ⟨y, yd⟩ := a
  simp only at p1 l1 hs
  by_cases hlt : yd + 1 < yearLen y
  · rw [if_pos hlt] at hs
    rw [hs]
    simp only
    have hl : yd + 1 < (if isLeap y then 366 else 365) := by
      simpa [yearLen] using hlt
    have hstep := monthDay_step (isLeap y) yd p1 hl
    have hr := monthDay_range (isLeap y) (yd + 1) (by omega) hl
    rw [hstep] at hr ⊢
    by_cases hday : (monthDay (isLeap y) yd).2 < daysInMonth (isLeap y) (monthDay (isLeap y) yd).1
    · simp only [if_pos hday]
    · simp only [if_neg hday] at hr ⊢
      have hm12 : (monthDay (isLeap y) yd).1 < 12 := by omega
      simp only [if_pos hm12]
  · rw [if_neg hlt] at hs
    rw [hs]
    simp only
    have hl : yd + 1 = (if isLeap y then 366 else 365) := by
      have : yd < (if isLeap y then 366 else 365) := by simpa [yearLen] using l1
      have : ¬ yd + 1 < (if isLeap y then 366 else 365) := by simpa [yearLen] using hlt
      omega
    rw [monthDay_last (isLeap y) yd p1 hl, monthDay_zero]
    cases isLeap y <;> simp [daysInMonth]

/-- On a well-formed time `utcTimeToJST` moves the instant by 32400 seconds. -/
theorem utcTimeToJST_eq (t : Time) (h : t.wellFormed) :
    utcTimeToJST t = { sec := t.sec + 32400, nsec := t.nsec } := by
  obtain ⟨h0, h1⟩ := h
  have e1 : Int.tdiv (9 * Hour) 1000000000 = 32400 := by decide
  have e2 : Int.tmod (9 * Hour) 1000000000 = 0 := by decide
  simp only [utcTimeToJST, Time.Add, e1, e2, add_zero]
  rw [if_neg (by omega), if_neg (by omega)]

/-- The date and clock 32400 seconds later are those of the calendar nine hours later. -/
theorem civil_add_nine_hours (t : Time) :
    ({ sec := t.sec + 32400, nsec := t.nsec } : Time).civil = t.civil.plusNineHours := by
  by_cases hh : t.sec % 86400 / 3600 + 9 < 24
  · have hd : (t.sec + 32400) / 86400 = t.sec / 86400 := by omega
    have e1 : (t.sec + 32400) % 86400 / 3600 = t.sec % 86400 / 3600 + 9 := by omega
    have e2 : (t.sec + 32400) % 86400 % 3600 / 60 = t.sec % 86400 % 3600 / 60 := by omega
    have e3 : (t.sec + 32400) % 86400 % 60 = t.sec % 86400 % 60 := by omega
    simp only [Time.civil, Civil.plusNineHours, hd, e1, e2, e3, if_pos hh]
  · have hn := civil_add_day t
    have e0 : (t.sec + 32400) / 86400 = (t.sec + 86400) / 86400 := by omega
    have e1 : (t.sec + 32400) % 86400 / 3600 = t.sec % 86400 / 3600 + 9 - 24 := by omega
    have e2 : (t.sec + 32400) % 86400 % 3600 / 60 = t.sec % 86400 % 3600 / 60 := by omega
    have e3 : (t.sec + 32400) % 86400 % 60 = t.sec % 86400 % 60 := by omega
    have hp : t.civil.plusNineHours =
        { t.civil.nextDay with hour := t.civil.hour + 9 - 24 } := by
      simp only [Civil.plusNineHours]
      rw [if_neg (by simpa [Time.civil] using hh)]
    rw [hp, ← hn]
    simp only [Time.civil, e0, e1, e2, e3]
    have e4 : (t.sec + 86400) % 86400 % 3600 / 60 = t.sec % 86400 % 3600 / 60 := by omega
    have e5 : (t.sec + 86400) % 86400 % 60 = t.sec % 86400 % 60 := by omega
    simp only [e4, e5]

/-- The layout `2006-01-02 15:04:05` writes the six fields of the date and clock. -/
theorem format_stamp_layout (t : Time) :
    t.Format "2006-01-02 15:04:05" = t.civil.write := by
  unfold Time.Format Civil.write
  congr 1
  show formatLayout t 0 ['2', '0', '0', '6', '-', '0', '1', '-', '0', '2', ' ', '1', '5', ':',
    '0', '4', ':', '0', '5'] = _
  simp [formatLayout, stdChunk, Time.field]

/-- Numbers below 100 are written on two digits by `appendInt`. -/
theorem appendInt_two (x : Int) (h0 : 0 ≤ x) (h1 : x < 100) :
    appendInt x 2 = twoDigits x := by
  obtain ⟨n, rfl⟩ := Int.eq_ofNat_of_zero_le h0
  have hn : n < 100 := by omega
  have key : ∀ m : Fin 100, appendInt (m.val : Int) 2 = twoDigits (m.val : Int) := by decide
  exact key ⟨n, hn⟩

/-- The digits of a number below 10000, behind the zeros that fill four places. -/
theorem toDigits_four (n : Nat) (h : n < 10000) :
    List.replicate (4 - (Nat.toDigits 10 n).length) '0' ++ Nat.toDigits 10 n =
      [Nat.digitChar (n / 1000), Nat.digitChar (n / 100 % 10), Nat.digitChar (n / 10 % 10),
        Nat.digitChar (n % 10)] := by
  unfold Nat.toDigits
  by_cases h1 : n < 10
  · have a1 : n / 10 = 0 := by omega
    have a2 : n / 100 = 0 := by omega
    have a3 : n / 1000 = 0 := by omega
    simp [Nat.toDigitsCore, a1, a2, a3, List.replicate]
    rfl
  by_cases h2 : n < 100
  · obtain ⟨k, rfl⟩ : ∃ k, n = k + 1 := ⟨n - 1, by omega⟩
    have a1 : (k + 1) / 10 ≠ 0 := by omega
    have a2 : (k + 1) / 10 / 10 = 0 := by omega
    have a3 : (k + 1) / 100 = 0 := by omega
    have a4 : (k + 1) / 1000 = 0 := by omega
    simp [Nat.toDigitsCore, a1, a2, a3, a4, List.replicate]
    rfl
  by_cases h3 : n < 1000
  · obtain ⟨k, rfl⟩ : ∃ k, n = k + 2 := ⟨n - 2, by omega⟩
    have a1 : (k + 2) / 10 ≠ 0 := by omega
    have a2 : (k + 2) / 10 / 10 ≠ 0 := by omega
    have a3 : (k + 2) / 10 / 10 / 10 = 0 := by omega
    have a4 : (k + 2) / 1000 = 0 := by omega
    have a5 : (k + 2) / 10 / 10 % 10 = (k + 2) / 100 % 10 := by omega
    simp [Nat.toDigitsCore, a1, a2, a3, a4, a5, List.replicate]
    rfl
  · obtain ⟨k, rfl⟩ : ∃ k, n = k + 3 := ⟨n - 3, by omega⟩
    have a1 : (k + 3) / 10 ≠ 0 := by omega
    have a2 : (k + 3) / 10 / 10 ≠ 0 := by omega
    have a3 : (k + 3) / 10 / 10 / 10 ≠ 0 := by omega
    have a4 : (k + 3) / 10 / 10 / 10 / 10 = 0 := by omega
    have a5 : (k + 3) / 10 / 10 % 10 = (k + 3) / 100 % 10 := by omega
    have a6 : (k + 3) / 10 / 10 / 10 % 10 = (k + 3) / 1000 := by omega
    simp [Nat.toDigitsCore, a1, a2, a3, a4, a5, a6, List.replicate]

/-- Years from 0 to 9999 are written on four digits by `appendInt`. -/
theorem appendInt_four (x : Int) (h0 : 0 ≤ x) (h1 : x < 10000) :
    appendInt x 4 = fourDigits x := by
  obtain ⟨n, rfl⟩ := Int.eq_ofNat_of_zero_le h0
  have hn : n < 10000 := by omega
  have e1 : ((n : Int) / 1000).toNat = n / 1000 := by omega
  have e2 : ((n : Int) / 100 % 10).toNat = n / 100 % 10 := by omega
  have e3 : ((n : Int) / 10 % 10).toNat = n / 10 % 10 := by omega
  have e4 : ((n : Int) % 10).toNat = n % 10 := by omega
  have hneg : ¬ ((n : Int) < 0) := by omega
  simp only [appendInt, fourDigits, digitChar, e1, e2, e3, e4, if_neg hneg, Int.natAbs_ofNat,
    List.nil_append]
  exact toDigits_four n hn

/-- The date and clock of an instant are within the ranges of the calendar. -/
theorem civil_range (t : Time) :
    1 ≤ t.civil.month ∧ t.civil.month ≤ 12 ∧ 1 ≤ t.civil.day ∧ t.civil.day ≤ 31 ∧
      0 ≤ t.civil.hour ∧ t.civil.hour < 24 ∧ 0 ≤ t.civil.minute ∧ t.civil.minute < 60 ∧
      0 ≤ t.civil.second ∧ t.civil.second < 60 := by
  obtain ⟨-, p1, l1⟩ := absDate_spec (t.sec / 86400)
  have hl : (absDate (t.sec / 86400)).2 <
      (if isLeap (absDate (t.sec / 86400)).1 then 366 else 365) := by
    simpa [yearLen] using l1
  obtain ⟨m1, m2, d1, d2⟩ := monthDay_range _ _ p1 hl
  have hd : daysInMonth (isLeap (absDate (t.sec / 86400)).1)
      (monthDay (isLeap (absDate (t.sec / 86400)).1) (absDate (t.sec / 86400)).2).1 ≤ 31 := by
    unfold daysInMonth; split <;> [split; split] <;> decide
  simp only [Time.civil]
  refine ⟨m1, m2, d1, by omega, ?_, ?_, ?_, ?_, ?_, ?_⟩ <;> omega

/-- A date and clock within the ranges of the calendar, with a year from 0 to 9999, is
written by `Format` as `YYYY-MM-DD HH:MM:SS`. -/
theorem write_eq_stamp (c : Civil) (hy0 : 0 ≤ c.year) (hy1 : c.year ≤ 9999)
    (hm : 0 ≤ c.month ∧ c.month < 100) (hd : 0 ≤ c.day ∧ c.day < 100)
    (hh : 0 ≤ c.hour ∧ c.hour < 100) (hmi : 0 ≤ c.minute ∧ c.minute < 100)
    (hs : 0 ≤ c.second ∧ c.second < 100) : c.write = c.stamp := by
  simp only [Civil.write, Civil.stamp, appendInt_four c.year hy0 (by omega),
    appendInt_two c.month hm.1 hm.2, appendInt_two c.day hd.1 hd.2,
    appendInt_two c.hour hh.1 hh.2, appendInt_two c.minute hmi.1 hmi.2,
    appendInt_two c.second hs.1 hs.2]

/-- The `playedAt` field is the date and clock nine hours later, as `Format` writes them. -/
theorem playedAtField_eq_write (t : Time) (h : t.wellFormed) :
    playedAtField t = t.civil.plusNineHours.write := by
  rw [playedAtField, utcTimeToJST_eq t h, format_stamp_layout, civil_add_nine_hours]

/-! ## The fetchers and the handlers -/

/-- The bytes of a text that starts with a character are not empty. -/
theorem utf8_cons_ne_nil (c : Char) (cs : List Char) : utf8 (String.mk (c :: cs)) ≠ [] := by
  have h : String.utf8EncodeChar c ≠ [] := by
    unfold String.utf8EncodeChar
    dsimp only
    split_ifs <;> simp
  simp [utf8, List.flatMap_cons, h]

/-- What `json.Marshal` returns starts with an opening brace, so its bytes are not empty. -/
theorem jsonMarshal_bytes_ne_nil (fields : List (String × String)) (text : String)
    (h : jsonMarshal fields = .ok text) : utf8 text ≠ [] := by
  simp only [jsonMarshal, Except.ok.injEq] at h
  subst h
  cases fields with
  | nil => exact utf8_cons_ne_nil _ _
  | cons kv rest => exact utf8_cons_ne_nil _ _

/-- A body that `Nowplaying` returns is nil or holds at least one byte. -/
theorem Nowplaying_body_ne_nil (authenticate : Outcome Client)
    (up : Client → Except String CurrentlyPlaying) (b : Bytes)
    (h : Nowplaying authenticate up = .ok { Body := some b }) : b ≠ [] := by
  unfold Nowplaying at h
  split at h <;> try cases h
  split at h <;> try cases h
  split at h <;> try cases h
  split at h <;> try cases h
  exact jsonMarshal_bytes_ne_nil _ _ rfl

/-- A body that `Lastplayed` returns is nil or holds at least one byte. -/
theorem Lastplayed_body_ne_nil (authenticate : Outcome Client)
    (up : Client → Except String (List RecentlyPlayedItem)) (b : Bytes)
    (h : Lastplayed authenticate up = .ok { Body := some b }) : b ≠ [] := by
  unfold Lastplayed at h
  split at h <;> try cases h
  split at h <;> try cases h
  split at h <;> try cases h
  split at h <;> try cases h
  exact jsonMarshal_bytes_ne_nil _ _ rfl

/-- C1: both handlers answer every result of their fetcher as the specification says:
status 400 and no body for an error; status 204 and no body for a response
whose body is nil; otherwise status 200 and the body of the fetcher, byte for
byte, as JSON.  A body that a fetcher returns is never empty without being nil,
so the last case is the case of a body that holds bytes. -/
theorem handlers_answer_fetcher_results
    (authenticate : Outcome Client) (now : Client → Except String CurrentlyPlaying)
    (last : Client → Except String (List RecentlyPlayedItem)) :
    ((∀ e, Nowplaying authenticate now = .err e →
        getNowplaying (Nowplaying authenticate now) =
          .ok { status := 400, json := false, body := [] }) ∧
      (Nowplaying authenticate now = .ok { Body := none } →
        getNowplaying (Nowplaying authenticate now) =
          .ok { status := 204, json := false, body := [] }) ∧
      (∀ b, Nowplaying authenticate now = .ok { Body := some b } →
        b ≠ [] ∧ getNowplaying (Nowplaying authenticate now) =
          .ok { status := 200, json := true, body := b })) ∧
    ((∀ e, Lastplayed authenticate last = .err e →
        getLastPlayed (Lastplayed authenticate last) =
          .ok { status := 400, json := false, body := [] }) ∧
      (Lastplayed authenticate last = .ok { Body := none } →
        getLastPlayed (Lastplayed authenticate last) =
          .ok { status := 204, json := false, body := [] }) ∧
      (∀ b, Lastplayed authenticate last = .ok { Body := some b } →
        b ≠ [] ∧ getLastPlayed (Lastplayed authenticate last) =
          .ok { status := 200, json := true, body := b })) := by
  refine ⟨⟨?_, ?_, ?_⟩, ⟨?_, ?_, ?_⟩⟩
  · intro e h; rw [h]; rfl
  · intro h; rw [h]; rfl
  · intro b h; exact ⟨Nowplaying_body_ne_nil _ _ b h, by rw [h]; rfl⟩
  · intro e h; rw [h]; rfl
  · intro h; rw [h]; rfl
  · intro b h; exact ⟨Lastplayed_body_ne_nil _ _ b h, by rw [h]; rfl⟩

/-- C1 on an example: with an upstream error `getNowplaying` answers 400 and nothing
else, and with an empty history `getLastPlayed` answers 204. -/
theorem handlers_answer_fetcher_results_witness :
    getNowplaying (Nowplaying (.ok sampleClient) (fun _ => .error "upstream")) =
        .ok { status := 400, json := false, body := [] } ∧
      getLastPlayed (Lastplayed (.ok sampleClient) (fun _ => .ok [])) =
        .ok { status := 204, json := false, body := [] } :=
  ⟨(handlers_answer_fetcher_results (.ok sampleClient) (fun _ => .error "upstream")
      (fun _ => .ok [])).1.1 "upstream" rfl,
   (handlers_answer_fetcher_results (.ok sampleClient) (fun _ => .error "upstream")
      (fun _ => .ok [])).2.2.1 rfl⟩

/-- C4: when authentication and the upstream call succeed and the upstream reports no
track, both fetchers return a response whose body is nil and no error; and a
fetcher returns a body only when the upstream reported a track. -/
theorem fetchers_empty_body_when_no_track (client : Client)
    (now : Client → Except String CurrentlyPlaying)
    (last : Client → Except String (List RecentlyPlayedItem)) :
    (now client = .ok { Item := none } →
      Nowplaying (.ok client) now = .ok { Body := none }) ∧
    (last client = .ok [] → Lastplayed (.ok client) last = .ok { Body := none }) ∧
    (∀ b, Nowplaying (.ok client) now = .ok { Body := some b } →
      ∃ item, now client = .ok { Item := some item }) ∧
    (∀ b, Lastplayed (.ok client) last = .ok { Body := some b } →
      ∃ first rest, last client = .ok (first :: rest)) := by
  refine ⟨?_, ?_, ?_, ?_⟩
  · intro h; simp [Nowplaying, h]
  · intro h; simp [Lastplayed, h]
  · intro b h
    unfold Nowplaying at h
    simp only at h
    split at h <;> try cases h
    rename_i cp hcp
    split at h <;> try cases h
    rename_i item hitem
    exact ⟨item, by rw [hcp]; cases cp; simp_all⟩
  · intro b h
    unfold Lastplayed at h
    simp only at h
    split at h <;> try cases h
    rename_i tracks htracks
    split at h <;> try cases h
    rename_i first rest
    exact ⟨first, rest, htracks⟩

/-- C4 on an example: nothing plays and nothing was played. -/
theorem fetchers_empty_body_when_no_track_witness :
    Nowplaying (.ok sampleClient) (fun _ => .ok { Item := none }) = .ok { Body := none } ∧
      Lastplayed (.ok sampleClient) (fun _ => .ok []) = .ok { Body := none } :=
  ⟨(fetchers_empty_body_when_no_track sampleClient (fun _ => .ok { Item := none })
      (fun _ => .ok [])).1 rfl,
   (fetchers_empty_body_when_no_track sampleClient (fun _ => .ok { Item := none })
      (fun _ => .ok [])).2.1 rfl⟩

/-- C10, the code at the failing input: for a track whose album has no image both
fetchers stop on the read `Images[0]` with an index out of range, where the
claim has them complete with a response or an error. -/
theorem fetchers_fault_without_image :
    Nowplaying (.ok sampleClient) (fun _ => .ok { Item := some trackWithoutImage }) =
        .fault "index out of range [0] with length 0" ∧
      Lastplayed (.ok sampleClient)
          (fun _ => .ok [{ Track := trackWithoutImage, PlayedAt := { sec := 0, nsec := 0 } }]) =
        .fault "index out of range [0] with length 0" ∧
      (Nowplaying (.ok sampleClient)
        (fun _ => .ok { Item := some trackWithoutImage })).returned = false := by
  refine ⟨rfl, rfl, rfl⟩

/-- The text `json.Marshal` returns for a `NowPlaying`: the seven members in the order of
the declaration. -/
theorem jsonMarshal_nowPlaying (n : NowPlaying) :
    jsonMarshal n.fields = .ok (
      "\x7b\"imageUrl\":" ++ jsonString n.ImageUrl ++
      ",\"trackName\":" ++ jsonString n.TrackName ++
      ",\"trackUrl\":" ++ jsonString n.TrackUrl ++
      ",\"albumName\":" ++ jsonString n.AlbumName ++
      ",\"albumUrl\":" ++ jsonString n.AlbumUrl ++
      ",\"artistName\":" ++ jsonString n.ArtistName ++
      ",\"artistUrl\":" ++ jsonString n.ArtistUrl ++ "\x7d") := by
  have k1 : (jsonString "imageUrl").data = "\"imageUrl\"".data := by decide
  have k2 : (jsonString "trackName").data = "\"trackName\"".data := by decide
  have k3 : (jsonString "trackUrl").data = "\"trackUrl\"".data := by decide
  have k4 : (jsonString "albumName").data = "\"albumName\"".data := by decide
  have k5 : (jsonString "albumUrl").data = "\"albumUrl\"".data := by decide
  have k6 : (jsonString "artistName").data = "\"artistName\"".data := by decide
  have k7 : (jsonString "artistUrl").data = "\"artistUrl\"".data := by decide
  unfold jsonMarshal
  refine congrArg Except.ok (String.ext ?_)
  simp only [NowPlaying.fields, encodeFields, String.data_append, k1, k2, k3, k4, k5, k6, k7]
  simp

/-- A string none of whose characters needs an escape is written between two quotes
as it is. -/
theorem jsonString_plain (v : String) (h : ∀ c ∈ v.data, jsonEscapeChar c = [c]) :
    jsonString v = "\"" ++ v ++ "\"" := by
  apply String.ext
  have hflat : ∀ l : List Char, (∀ c ∈ l, jsonEscapeChar c = [c]) →
      l.flatMap jsonEscapeChar = l := by
    intro l
    induction l with
    | nil => intro _; rfl
    | cons a t ih =>
      intro hl
      rw [List.flatMap_cons, hl a (List.mem_cons_self a t),
        ih (fun c hc => hl c (List.mem_cons_of_mem a hc))]
      rfl
  simp [jsonString, String.data_append, hflat v.data h]

/-! ## Authentication -/

/-- C6, the code at the failing input: for the redirect URI `http://localhost:abc/callback`
`url.Parse` reports the port, `getPortFromUri` drops that error and faults on the
nil URL, and so does `Authenticate`, which returns nothing to its caller; and
for no URI at all does `getPortFromUri` return an error, so the error branch of
`Authenticate` is never taken. -/
theorem getPortFromUri_faults_on_malformed_uri :
    urlParse "http://localhost:abc/callback" = .error "invalid port after host" ∧
    getPortFromUri "http://localhost:abc/callback" =
      .fault "invalid memory address or nil pointer dereference" ∧
    (Authenticate { interactiveEnv with SPOTIFY_REDIRECT_URI := "http://localhost:abc/callback" }
        "7a1f" none {}).2 = .fault "invalid memory address or nil pointer dereference" ∧
    (Authenticate { interactiveEnv with SPOTIFY_REDIRECT_URI := "http://localhost:abc/callback" }
        "7a1f" none {}).2.returned = false ∧
    (∀ uri e, getPortFromUri uri ≠ .err e) := by
  refine ⟨rfl, by decide, by decide, by decide, ?_⟩
  intro uri e h
  unfold getPortFromUri at h
  split at h <;> cases h

/-- With a refresh token `Authenticate` leaves the routes and the listeners as they are,
logs at most the state it drew, and does not wait. -/
theorem Authenticate_refresh_no_effect (env : Env) (state : String) (delivered : Option Client)
    (p : Process) (h : env.SPOTIFY_REFRESH_TOKEN ≠ "") :
    (Authenticate env state delivered p).1.mux = p.mux ∧
      (Authenticate env state delivered p).1.listeners = p.listeners ∧
      ((Authenticate env state delivered p).1.log = p.log ∨
        (Authenticate env state delivered p).1.log = p.log ++ [.nonce state]) ∧
      (Authenticate env state delivered p).2 ≠ .hang := by
  have hh : getPortFromUri env.SPOTIFY_REDIRECT_URI ≠ .hang := by
    unfold getPortFromUri; split <;> simp
  unfold Authenticate
  cases hp : getPortFromUri env.SPOTIFY_REDIRECT_URI <;> simp [h, refresh, spotifyNew]
  exact hh hp

/-- C7, as amended: for every configuration with a refresh token, `Authenticate`
registers no route, starts no listener and does not wait on the channel; and
when `url.Parse` accepts the redirect URI it returns the result of `refresh`,
which is a client built from a token of type `bearer` whose only other
populated field is the refresh token. -/
theorem Authenticate_with_refresh_token (env : Env) (state : String)
    (delivered : Option Client) (p : Process) (h : env.SPOTIFY_REFRESH_TOKEN ≠ "") :
    ((Authenticate env state delivered p).1.mux = p.mux ∧
      (Authenticate env state delivered p).1.listeners = p.listeners ∧
      (∀ e ∈ (Authenticate env state delivered p).1.log, e ∈ p.log ∨ e = .nonce state) ∧
      (Authenticate env state delivered p).2 ≠ .hang) ∧
    (∀ u, urlParse env.SPOTIFY_REDIRECT_URI = .ok u →
      (Authenticate env state delivered p).2 =
          refresh (newAuthenticator env) env.SPOTIFY_REFRESH_TOKEN ∧
        (Authenticate env state delivered p).2 =
          .ok { authenticator := newAuthenticator env
                token := { AccessToken := "", TokenType := "bearer"
                           RefreshToken := env.SPOTIFY_REFRESH_TOKEN, Expiry := none } }) := by
  obtain ⟨h1, h2, h3, h4⟩ := Authenticate_refresh_no_effect env state delivered p h
  refine ⟨⟨h1, h2, ?_, h4⟩, ?_⟩
  · intro e he
    rcases h3 with h3 | h3
    · rw [h3] at he; exact Or.inl he
    · rw [h3] at he
      rcases List.mem_append.mp he with he | he
      · exact Or.inl he
      · exact Or.inr (by simpa using he)
  · intro u hu
    unfold Authenticate getPortFromUri
    simp [hu, h, refresh, spotifyNew]

/-- C7 on an example: a refresh token `r` and the redirect URI `http://localhost:8080/callback`. -/
theorem Authenticate_with_refresh_token_witness :
    (Authenticate { interactiveEnv with SPOTIFY_REFRESH_TOKEN := "r" } "7a1f" none {}).2 =
      .ok { authenticator := newAuthenticator { interactiveEnv with SPOTIFY_REFRESH_TOKEN := "r" }
            token := { AccessToken := "", TokenType := "bearer", RefreshToken := "r",
                       Expiry := none } } :=
  ((Authenticate_with_refresh_token { interactiveEnv with SPOTIFY_REFRESH_TOKEN := "r" } "7a1f"
    none {} (by decide)).2
    { Scheme := "http", Host := "localhost:8080", Path := "/callback" } rfl).2

/-- C7 as stated fails: with the refresh token `r` and the redirect URI
`http://localhost:abc/callback` the call faults while it extracts the port, before
it looks at the refresh token, and so does not return the result of `refresh`. -/
theorem Authenticate_with_refresh_token_counterexample :
    malformedEnv.SPOTIFY_REFRESH_TOKEN ≠ "" ∧
      (Authenticate malformedEnv "7a1f" none {}).2 =
        .fault "invalid memory address or nil pointer dereference" ∧
      (Authenticate malformedEnv "7a1f" none {}).2 ≠
        refresh (newAuthenticator malformedEnv) malformedEnv.SPOTIFY_REFRESH_TOKEN := by
  decide

/-- A callback request whose `state` differs from the state of the handshake gets no
client sent on the channel, and the status 500 when `authenticator.Token`
returns an error and 404 otherwise; with the `Token` of the library, which
compares the `state` parameter of the URL itself, it is always 500. -/
theorem callbackHandler_state_differs :
    (∀ (token : String → Request → Except String Token) (authenticator : Authenticator)
        (state : String) (r : Request), r.FormValue "state" ≠ state →
      (callbackHandler token authenticator state r).sent = none ∧
        (∀ e, token state r = .error e →
          (callbackHandler token authenticator state r).status = 500) ∧
        (∀ tok, token state r = .ok tok →
          (callbackHandler token authenticator state r).status = 404)) ∧
    (∀ (exchange : String → Except String Token) (authenticator : Authenticator)
        (state : String) (r : Request), valuesGet r.query "state" ≠ state →
      callbackHandler (authenticatorToken exchange) authenticator state r =
        { status := 500, body := "failed to get token\n", sent := none }) := by
  constructor
  · intro token authenticator state r h
    unfold callbackHandler
    cases ht : token state r <;> simp [h]
  · intro exchange authenticator state r h
    have ht : ∃ e, authenticatorToken exchange state r = .error e := by
      unfold authenticatorToken
      split_ifs
      · exact ⟨_, rfl⟩
      · exact ⟨_, rfl⟩
      · exact ⟨_, rfl⟩
    obtain ⟨e, he⟩ := ht
    unfold callbackHandler
    rw [he]

/-- C8, the code at the failing input: the callback request `?code=c&state=forged`, whose
state differs from the state `7a1f` of the handshake, is refused by
`authenticator.Token`, which the handler calls first, and is answered 500
`failed to get token`; the comparison of the handler that answers 404 is not
reached.  No client is sent on the channel. -/
theorem callback_forged_state_answers_500 :
    valuesGet forgedCallback.query "state" ≠ "7a1f" ∧
      forgedCallback.FormValue "state" ≠ "7a1f" ∧
      callbackHandler (authenticatorToken fun _ => .ok { AccessToken := "a" })
          (newAuthenticator interactiveEnv) "7a1f" forgedCallback =
        { status := 500, body := "failed to get token\n", sent := none } ∧
      (callbackHandler (authenticatorToken fun _ => .ok { AccessToken := "a" })
        (newAuthenticator interactiveEnv) "7a1f" forgedCallback).status ≠ 404 := by
  decide

/-- C9, the code at the failing input: with no refresh token the first call of
`Authenticate` registers `/callback` and `/`, starts the listener, waits and
returns the client delivered; the second call draws a state and then faults
when it registers `/callback` again on the default mux: it starts no listener
and never waits on its channel. -/
theorem second_Authenticate_faults :
    (Authenticate interactiveEnv "7a1f" (some sampleClient) {}) =
      ({ mux := ["/callback", "/"], listeners := [":8080"]
         log := [.nonce "7a1f", .handleFunc "/callback", .handleFunc "/",
           .listenAndServe ":8080", .receive] }, .ok sampleClient) ∧
    (Authenticate interactiveEnv "c03d" (some sampleClient)
        (Authenticate interactiveEnv "7a1f" (some sampleClient) {}).1) =
      ({ mux := ["/callback", "/"], listeners := [":8080"]
         log := [.nonce "7a1f", .handleFunc "/callback", .handleFunc "/",
           .listenAndServe ":8080", .receive, .nonce "c03d"] },
        .fault "http: multiple registrations for /callback") := by
  decide

/-! ## The port of a redirect URI -/

theorem cutAt_of_not_mem (sep : Char) (s : List Char) (h : sep ∉ s) : cutAt sep s = none := by
  induction s with
  | nil => rfl
  | cons c t ih =>
    have hc : c ≠ sep := fun e => h (e ▸ List.mem_cons_self c t)
    have ht : sep ∉ t := fun e => h (List.mem_cons_of_mem c e)
    simp [cutAt, hc, ih ht]

theorem cutAt_append (sep : Char) (a b : List Char) (h : sep ∉ a) :
    cutAt sep (a ++ sep :: b) = some (a, b) := by
  induction a with
  | nil => simp [cutAt]
  | cons c t ih =>
    have hc : c ≠ sep := fun e => h (e ▸ List.mem_cons_self c t)
    have ht : sep ∉ t := fun e => h (List.mem_cons_of_mem c e)
    simp [cutAt, hc, ih ht]

theorem cutAtLast_of_not_mem (sep : Char) (s : List Char) (h : sep ∉ s) :
    cutAtLast sep s = none := by
  simp [cutAtLast, cutAt_of_not_mem sep s.reverse (by simpa using h)]

theorem cutAtLast_append (sep : Char) (a b : List Char) (h : sep ∉ b) :
    cutAtLast sep (a ++ sep :: b) = some (a, b) := by
  have hr : (a ++ sep :: b).reverse = b.reverse ++ sep :: a.reverse := by simp
  simp [cutAtLast, hr, cutAt_append sep b.reverse a.reverse (by simpa using h)]

/-- The loop of `getScheme` runs over the characters of a scheme up to the colon. -/
theorem getSchemeLoop_scheme (whole seen cs rest : List Char) (hseen : seen ≠ [])
    (hcs : ∀ c ∈ cs, schemeChar c = true) :
    getSchemeLoop whole seen (cs ++ ':' :: rest) = .ok (seen.reverse ++ cs, rest) := by
  induction cs generalizing seen with
  | nil =>
    have h1 : isLetter ':' = false := by decide
    have h2 : isDigit ':' = false := by decide
    have h3 : seen.isEmpty = false := by cases seen <;> simp_all
    simp [getSchemeLoop, h1, h2, h3]
  | cons c t ih =>
    have hc := hcs c (List.mem_cons_self c t)
    have ht : ∀ d ∈ t, schemeChar d = true := fun d hd => hcs d (List.mem_cons_of_mem c hd)
    have h3 : seen.isEmpty = false := by cases seen <;> simp_all
    have hnext := ih (c :: seen) (by simp) ht
    simp only [List.reverse_cons, List.append_assoc, List.singleton_append] at hnext
    by_cases hl : isLetter c = true
    · simp [getSchemeLoop, hl, hnext]
    · have hd : (isDigit c || c = '+' || c = '-' || c = '.') = true := by
        simp only [schemeChar, Bool.or_eq_true] at hc ⊢
        simp only [Bool.not_eq_true] at hl
        simp only [hl, Bool.false_eq_true, false_or] at hc
        rcases hc with ((hc | hc) | hc) | hc <;> simp [hc]
      simp only [Bool.not_eq_true] at hl
      simp only [List.cons_append, getSchemeLoop, hl, Bool.false_eq_true, if_false, hd, if_true,
        h3]
      exact hnext

/-- The function `unescape` leaves a text without `%` as it is, when the mode accepts
its characters. -/
theorem unescape_plain (mode : Encoding) (s : List Char) (h1 : '%' ∉ s)
    (h2 : ∀ c ∈ s, ((mode = .encodeHost || mode = .encodeZone) && c.toNat < 128 &&
      shouldEscapeHost c) = false) : unescape mode s = .ok s := by
  induction s with
  | nil => rfl
  | cons c t ih =>
    have hc : c ≠ '%' := fun e => h1 (e ▸ List.mem_cons_self c t)
    have ht : '%' ∉ t := fun e => h1 (List.mem_cons_of_mem c e)
    have h2c := h2 c (List.mem_cons_self c t)
    have h2t : ∀ d ∈ t, ((mode = .encodeHost || mode = .encodeZone) && d.toNat < 128 &&
        shouldEscapeHost d) = false := fun d hd => h2 d (List.mem_cons_of_mem c hd)
    unfold unescape
    rw [if_neg hc, h2c, ih ht h2t]
    simp

theorem char_ne_of_holds (good : Char → Bool) (d : Char) (hd : good d = false) (c : Char)
    (hc : good c = true) : c ≠ d := by
  rintro rfl
  rw [hd] at hc
  cases hc

theorem not_mem_of_all (good : Char → Bool) (d : Char) (hd : good d = false) (s : List Char)
    (hs : ∀ c ∈ s, good c = true) : d ∉ s :=
  fun hmem => char_ne_of_holds good d hd d (hs d hmem) rfl

/-- The characters of a scheme are not control characters. -/
theorem schemeChar_not_ctl (c : Char) (h : schemeChar c = true) :
    (c.toNat < 32 || c.toNat == 127) = false := by
  simp only [schemeChar, isLetter, isDigit, Bool.or_eq_true, Bool.and_eq_true,
    decide_eq_true_eq] at h
  rcases h with (((h | h) | h) | h) | h
  · simp only [Bool.or_eq_false_iff, decide_eq_false_iff_not, beq_eq_false_iff_ne]
    have e1 : 'a'.toNat = 97 := rfl
    have e2 : 'z'.toNat = 122 := rfl
    have e3 : 'A'.toNat = 65 := rfl
    have e4 : 'Z'.toNat = 90 := rfl
    rw [e1, e2, e3, e4] at h
    omega
  · simp only [Bool.or_eq_false_iff, decide_eq_false_iff_not, beq_eq_false_iff_ne]
    have e1 : '0'.toNat = 48 := rfl
    have e2 : '9'.toNat = 57 := rfl
    rw [e1, e2] at h
    omega
  · subst h; decide
  · subst h; decide
  · subst h; decide

/-- A digit is a character of a scheme. -/
theorem schemeChar_of_isDigit (c : Char) (h : isDigit c = true) : schemeChar c = true := by
  simp [schemeChar, h]

/-- A letter is a character of a scheme. -/
theorem schemeChar_of_isLetter (c : Char) (h : isLetter c = true) : schemeChar c = true := by
  simp [schemeChar, h]

/-- A host may hold digits. -/
theorem shouldEscapeHost_of_isDigit (c : Char) (h : isDigit c = true) :
    shouldEscapeHost c = false := by
  simp [shouldEscapeHost, h]

/-- The characters of a plain host pass the check of `unescape`. -/
theorem hostChar_unescape (mode : Encoding) (c : Char) (h : hostChar c = true) :
    ((mode = .encodeHost || mode = .encodeZone) && c.toNat < 128 && shouldEscapeHost c) =
      false := by
  simp only [hostChar, Bool.and_eq_true, Bool.or_eq_true, decide_eq_true_eq,
    Bool.not_eq_true'] at h
  obtain ⟨-, h4⟩ := h
  rcases h4 with h4 | h4
  · have : decide (c.toNat < 128) = false := by simp; omega
    simp [this]
  · simp [h4]

/-- The function `parseHost` accepts a plain host followed by a colon and digits. -/
theorem parseHost_host_port (host port : List Char) (hhost : ∀ c ∈ host, hostChar c = true)
    (hport : ∀ c ∈ port, isDigit c = true) :
    parseHost (host ++ ':' :: port) = .ok (host ++ ':' :: port) := by
  have hb : (host ++ ':' :: port).take 1 ≠ ['['] := by
    cases host with
    | nil => simp
    | cons c t =>
      have := char_ne_of_holds hostChar '[' (by decide) c (hhost c (List.mem_cons_self c t))
      simp [this]
  have hcolon : ':' ∉ port := not_mem_of_all isDigit ':' (by decide) port hport
  have hvalid : validOptionalPort (':' :: port) = true := by
    simp only [validOptionalPort, decide_True, Bool.true_and, List.all_eq_true]
    exact hport
  have hpct : '%' ∉ host ++ ':' :: port := by
    intro hmem
    rcases List.mem_append.mp hmem with h | h
    · exact not_mem_of_all hostChar '%' (by decide) host hhost h
    · rcases List.mem_cons.mp h with h | h
      · exact absurd h (by decide)
      · exact not_mem_of_all isDigit '%' (by decide) port hport h
  have hun : unescape .encodeHost (host ++ ':' :: port) = .ok (host ++ ':' :: port) := by
    apply unescape_plain _ _ hpct
    intro c hc
    rcases List.mem_append.mp hc with h | h
    · exact hostChar_unescape _ c (hhost c h)
    · rcases List.mem_cons.mp h with h | h
      · subst h; decide
      · simp [shouldEscapeHost_of_isDigit c (hport c h)]
  unfold parseHost
  rw [if_neg hb, cutAtLast_append ':' host port hcolon]
  simp [hvalid, hun]

/-- The function `parseAuthority` finds no user in a plain host followed by a port. -/
theorem parseAuthority_host_port (host port : List Char)
    (hhost : ∀ c ∈ host, hostChar c = true) (hport : ∀ c ∈ port, isDigit c = true) :
    parseAuthority (host ++ ':' :: port) = .ok (none, host ++ ':' :: port) := by
  have hat : '@' ∉ host ++ ':' :: port := by
    intro hmem
    rcases List.mem_append.mp hmem with h | h
    · exact not_mem_of_all hostChar '@' (by decide) host hhost h
    · rcases List.mem_cons.mp h with h | h
      · exact absurd h (by decide)
      · exact not_mem_of_all isDigit '@' (by decide) port hport h
  unfold parseAuthority
  rw [cutAtLast_of_not_mem '@' _ hat]
  simp [parseHost_host_port host port hhost hport]

/-- The method `Port` reads the digits behind the last colon of a plain host. -/
theorem splitHostPort_host_port (host port : List Char)
    (hport : ∀ c ∈ port, isDigit c = true) :
    (splitHostPort (host ++ ':' :: port)).2 = port := by
  have hcolon : ':' ∉ port := not_mem_of_all isDigit ':' (by decide) port hport
  have hvalid : validOptionalPort (':' :: port) = true := by
    simp only [validOptionalPort, decide_True, Bool.true_and, List.all_eq_true]
    exact hport
  unfold splitHostPort
  rw [cutAtLast_append ':' host port hcolon]
  simp only [hvalid, if_true]
  split <;> rfl

/-- The query is taken off a text that holds no `?` before it. -/
theorem splitQuery_rest (rest query : List Char) (hrest : '?' ∉ rest)
    (hquery : query = [] ∨ ∃ q, query = '?' :: q) :
    (splitQuery (rest ++ query)).2.1 = rest := by
  rcases hquery with h | ⟨q, h⟩
  · subst h
    have hcount : List.count '?' rest = 0 := List.count_eq_zero.mpr hrest
    simp [splitQuery, hcount, cutAt_of_not_mem '?' rest hrest]
  · subst h
    have hcount : List.count '?' rest = 0 := List.count_eq_zero.mpr hrest
    unfold splitQuery
    split
    · rename_i hforce
      simp only [Bool.and_eq_true, decide_eq_true_eq, List.count_append, hcount,
        List.count_cons_self, zero_add] at hforce
      obtain ⟨hlast, hone⟩ := hforce
      have hq0 : List.count '?' q = 0 := by omega
      have hqmem : '?' ∉ q := List.count_eq_zero.mp hq0
      have hqnil : q = [] := by
        by_contra hne
        have hl : (rest ++ '?' :: q).getLast? = q.getLast? := by
          have : rest ++ '?' :: q = (rest ++ ['?']) ++ q := by simp
          rw [this, List.getLast?_append_of_ne_nil _ hne]
        rw [hl] at hlast
        exact hqmem (List.mem_of_getLast?_eq_some hlast)
      subst hqnil
      exact List.dropLast_concat
    · simp [cutAt_append '?' rest q hrest]

/-- The steps of `parse` behind the query, on `//host:port` followed by a path. -/
theorem parseHierarchy_uri (scheme host port path rawQuery : List Char) (forceQuery : Bool)
    (hscheme : scheme ≠ [])
    (hhost : ∀ d ∈ host, hostChar d = true) (hport : ∀ d ∈ port, isDigit d = true)
    (hslash : path = [] ∨ ∃ tail, path = '/' :: tail)
    (hpath : ∀ d ∈ path, pathChar d = true) :
    parseHierarchy scheme forceQuery ('/' :: '/' :: ((host ++ ':' :: port) ++ path)) rawQuery =
      .ok { Scheme := String.mk scheme, Host := String.mk (host ++ ':' :: port)
            Path := String.mk path, ForceQuery := forceQuery
            RawQuery := String.mk rawQuery } := by
  have hslashAuth : '/' ∉ host ++ ':' :: port := by
    intro hmem
    rcases List.mem_append.mp hmem with h | h
    · exact not_mem_of_all hostChar '/' (by decide) host hhost h
    · rcases List.mem_cons.mp h with h | h
      · exact absurd h (by decide)
      · exact not_mem_of_all isDigit '/' (by decide) port hport h
  have hcut : (match cutAt '/' ((host ++ ':' :: port) ++ path) with
      | some (before, after) => (before, '/' :: after)
      | none => ((host ++ ':' :: port) ++ path, [])) = (host ++ ':' :: port, path) := by
    rcases hslash with h | ⟨tail, h⟩
    · subst h
      rw [List.append_nil, cutAt_of_not_mem '/' _ hslashAuth]
    · subst h
      rw [cutAt_append '/' _ tail hslashAuth]
  have hunpath : unescape .encodePath path = .ok path := by
    apply unescape_plain
    · exact not_mem_of_all pathChar '%' (by decide) path hpath
    · intro d _; rfl
  have hne : scheme.isEmpty = false := by cases scheme <;> simp_all
  unfold parseHierarchy
  simp only [List.append_assoc, List.cons_append] at hcut
  simp [hne, hcut, parseAuthority_host_port host port hhost hport, hunpath]

/-- What `parse` makes of `scheme://host:port` followed by a path and a query. -/
theorem parseNoFragment_uri (c : Char) (cs host port path query : List Char)
    (hc : isLetter c = true) (hcs : ∀ d ∈ cs, schemeChar d = true)
    (hhost : ∀ d ∈ host, hostChar d = true) (hport : ∀ d ∈ port, isDigit d = true)
    (hslash : path = [] ∨ ∃ tail, path = '/' :: tail)
    (hpath : ∀ d ∈ path, pathChar d = true)
    (hmark : query = [] ∨ ∃ q, query = '?' :: q)
    (hquery : ∀ d ∈ query, queryChar d = true) :
    ∃ u, parseNoFragment
        (c :: (cs ++ ':' :: (('/' :: '/' :: ((host ++ ':' :: port) ++ path)) ++ query))) =
      .ok u ∧ u.Host = String.mk (host ++ ':' :: port) := by
  -- the characters behind the scheme and before the query
  have hrest : ∀ (good : Char → Bool), (∀ d, hostChar d = true → good d = true) →
      (∀ d, isDigit d = true → good d = true) → (∀ d, pathChar d = true → good d = true) →
      good ':' = true → good '/' = true →
      ∀ d ∈ '/' :: '/' :: ((host ++ ':' :: port) ++ path), good d = true := by
    intro good g2 g1 g3 g4 g5 d hd
    simp only [List.mem_append, List.mem_cons] at hd
    rcases hd with hd | hd | ((hd | hd | hd) | hd)
    · subst hd; exact g5
    · subst hd; exact g5
    · exact g2 _ (hhost d hd)
    · subst hd; exact g4
    · exact g1 _ (hport d hd)
    · exact g3 _ (hpath d hd)
  have hall : ∀ (good : Char → Bool), (∀ d, schemeChar d = true → good d = true) →
      (∀ d, hostChar d = true → good d = true) → (∀ d, pathChar d = true → good d = true) →
      (∀ d, queryChar d = true → good d = true) → good ':' = true → good '/' = true →
      ∀ d ∈ c :: (cs ++ ':' :: (('/' :: '/' :: ((host ++ ':' :: port) ++ path)) ++ query)),
        good d = true := by
    intro good g1 g2 g3 g6 g4 g5 d hd
    rcases List.mem_cons.mp hd with hd | hd
    · subst hd; exact g1 _ (schemeChar_of_isLetter _ hc)
    · rcases List.mem_append.mp hd with hd | hd
      · exact g1 _ (hcs d hd)
      · rcases List.mem_cons.mp hd with hd | hd
        · subst hd; exact g4
        · rcases List.mem_append.mp hd with hd | hd
          · exact hrest good g2 (fun d h => g1 d (schemeChar_of_isDigit d h)) g3 g4 g5 d hd
          · exact g6 _ (hquery d hd)
  have hctl : stringContainsCTLByte
      (c :: (cs ++ ':' :: (('/' :: '/' :: ((host ++ ':' :: port) ++ path)) ++ query))) =
        false := by
    have := hall (fun d => !(d.toNat < 32 || d.toNat == 127))
      (fun d h => by simp only [schemeChar_not_ctl d h]; rfl)
      (fun d h => by
        simp only [hostChar, Bool.and_eq_true] at h
        exact h.1.2)
      (fun d h => by
        simp only [pathChar, Bool.and_eq_true] at h
        exact h.2)
      (fun d h => by
        simp only [queryChar, Bool.and_eq_true] at h
        exact h.2)
      (by decide) (by decide)
    unfold stringContainsCTLByte
    rw [List.any_eq_false]
    intro d hd
    have := this d hd
    simpa using this
  have hstar : c :: (cs ++ ':' :: (('/' :: '/' :: ((host ++ ':' :: port) ++ path)) ++ query)) ≠
      ['*'] := by
    intro h
    have := congrArg List.length h
    simp at this
  have hsch : getScheme
      (c :: (cs ++ ':' :: (('/' :: '/' :: ((host ++ ':' :: port) ++ path)) ++ query))) =
      .ok (c :: cs, ('/' :: '/' :: ((host ++ ':' :: port) ++ path)) ++ query) := by
    unfold getScheme
    rw [getSchemeLoop, if_pos hc, getSchemeLoop_scheme _ [c] cs _ (by simp) hcs]
    rfl
  have hq : '?' ∉ '/' :: '/' :: ((host ++ ':' :: port) ++ path) :=
    not_mem_of_all (fun d => d ≠ '?') '?' (by decide) _
      (hrest _ (fun d h => by simpa using char_ne_of_holds hostChar '?' (by decide) d h)
        (fun d h => by simpa using char_ne_of_holds isDigit '?' (by decide) d h)
        (fun d h => by simpa using char_ne_of_holds pathChar '?' (by decide) d h)
        (by decide) (by decide))
  unfold parseNoFragment
  simp only [hctl, hstar, hsch, Bool.false_eq_true, if_false]
  rw [splitQuery_rest _ query hq hmark,
    parseHierarchy_uri _ host port path _ _ (by simp) hhost hport hslash hpath]
  exact ⟨_, rfl, rfl⟩

/-- C5: for every redirect URI `scheme://host:port` followed by a path and a query, with
a scheme that starts with a letter, a plain host, a port made of digits, an
unescaped path and a query, `getPortFromUri` returns exactly the port and a nil
error. -/
theorem getPortFromUri_returns_port (c : Char) (cs host port path query : List Char)
    (hc : isLetter c = true) (hcs : ∀ d ∈ cs, schemeChar d = true)
    (hhost : ∀ d ∈ host, hostChar d = true) (hport : ∀ d ∈ port, isDigit d = true)
    (hslash : path = [] ∨ ∃ tail, path = '/' :: tail)
    (hpath : ∀ d ∈ path, pathChar d = true)
    (hmark : query = [] ∨ ∃ q, query = '?' :: q)
    (hquery : ∀ d ∈ query, queryChar d = true) :
    getPortFromUri (uriOf (c :: cs) host port path query) = .ok (String.mk port) := by
  have hraw : c :: cs ++ ':' :: '/' :: '/' :: host ++ ':' :: port ++ path ++ query =
      c :: (cs ++ ':' :: (('/' :: '/' :: ((host ++ ':' :: port) ++ path)) ++ query)) := by simp
  have hsharp : '#' ∉
      c :: (cs ++ ':' :: (('/' :: '/' :: ((host ++ ':' :: port) ++ path)) ++ query)) := by
    intro hmem
    simp only [List.mem_append, List.mem_cons] at hmem
    rcases hmem with h | h | h | ((h | h | ((h | h | h) | h)) | h)
    · exact char_ne_of_holds isLetter '#' (by decide) c hc h.symm
    · exact not_mem_of_all schemeChar '#' (by decide) cs hcs h
    · exact absurd h (by decide)
    · exact absurd h (by decide)
    · exact absurd h (by decide)
    · exact not_mem_of_all hostChar '#' (by decide) host hhost h
    · exact absurd h (by decide)
    · exact not_mem_of_all isDigit '#' (by decide) port hport h
    · exact not_mem_of_all pathChar '#' (by decide) path hpath h
    · exact not_mem_of_all queryChar '#' (by decide) query hquery h
  obtain ⟨u, hu, hhostEq⟩ :=
    parseNoFragment_uri c cs host port path query hc hcs hhost hport hslash hpath hmark hquery
  have hparse : urlParse (uriOf (c :: cs) host port path query) = .ok u := by
    unfold urlParse uriOf
    simp only [hraw, cutAt_of_not_mem '#' _ hsharp, hu]
    rfl
  unfold getPortFromUri
  rw [hparse]
  simp only [URL.Port, hhostEq, splitHostPort_host_port host port hport]

/-- C5 on the usual redirect URI: `http://localhost:8080/callback` gives the port `8080`. -/
theorem getPortFromUri_returns_port_witness :
    getPortFromUri "http://localhost:8080/callback" = .ok "8080" :=
  getPortFromUri_returns_port 'h' ['t', 't', 'p'] "localhost".data "8080".data "/callback".data
    [] (by decide) (by decide) (by decide) (by decide) (Or.inr ⟨_, rfl⟩) (by decide)
    (Or.inl rfl) (by decide)

/-! ## UTF-8: decoding undoes `utf8` -/

theorem uint8_as_fin (x : UInt8) : ∃ f : Fin 256, x = UInt8.ofNat f.val := by
  refine ⟨⟨x.toNat, x.toNat_lt⟩, ?_⟩
  apply UInt8.eq_of_toBitVec_eq
  apply BitVec.eq_of_toNat_eq
  simp [UInt8.ofNat, UInt8.toNat]

theorem uint8_ofNat_toNat (n : Nat) : (UInt8.ofNat n).toNat = n % 256 := by
  simp [UInt8.ofNat, UInt8.toNat]

set_option maxRecDepth 100000 in
theorem uint8_masks_fin : ∀ x : Fin 256,
    ((UInt8.ofNat x.val) &&& 0x3f ||| 0x80).toNat = 128 + x.val % 64 ∧
    ((UInt8.ofNat x.val) &&& 0x1f ||| 0xc0).toNat = 192 + x.val % 32 ∧
    ((UInt8.ofNat x.val) &&& 0x0f ||| 0xe0).toNat = 224 + x.val % 16 ∧
    ((UInt8.ofNat x.val) &&& 0x07 ||| 0xf0).toNat = 240 + x.val % 8 := by
  decide

theorem uint8_masks (x : UInt8) :
    (x &&& 0x3f ||| 0x80).toNat = 128 + x.toNat % 64 ∧
    (x &&& 0x1f ||| 0xc0).toNat = 192 + x.toNat % 32 ∧
    (x &&& 0x0f ||| 0xe0).toNat = 224 + x.toNat % 16 ∧
    (x &&& 0x07 ||| 0xf0).toNat = 240 + x.toNat % 8 := by
  obtain ⟨f, rfl⟩ := uint8_as_fin x
  have h := uint8_masks_fin f
  have e : (UInt8.ofNat f.val).toNat = f.val := by
    rw [uint8_ofNat_toNat]; exact Nat.mod_eq_of_lt f.isLt
  rw [e]
  exact h

theorem uint32_toUInt8 (v : UInt32) : v.toUInt8.toNat = v.toNat % 256 := by
  simp [UInt32.toUInt8, UInt8.toNat, Nat.toUInt8, UInt8.ofNat]

theorem uint32_shift (v : UInt32) :
    (v >>> 6).toNat = v.toNat / 64 ∧ (v >>> 12).toNat = v.toNat / 4096 ∧
      (v >>> 18).toNat = v.toNat / 262144 := by
  refine ⟨?_, ?_, ?_⟩
  · show (UInt32.shiftRight v 6).toNat = _
    have : (UInt32.mod 6 32).toBitVec.toNat = 6 := by decide
    simp [UInt32.shiftRight, UInt32.toNat, Fin.shiftRight, Nat.shiftRight_eq_div_pow, this]
  · show (UInt32.shiftRight v 12).toNat = _
    have : (UInt32.mod 12 32).toBitVec.toNat = 12 := by decide
    simp [UInt32.shiftRight, UInt32.toNat, Fin.shiftRight, Nat.shiftRight_eq_div_pow, this]
  · show (UInt32.shiftRight v 18).toNat = _
    have : (UInt32.mod 18 32).toBitVec.toNat = 18 := by decide
    simp [UInt32.shiftRight, UInt32.toNat, Fin.shiftRight, Nat.shiftRight_eq_div_pow, this]

/-- The continuation bytes that `utf8EncodeChar` writes. -/
theorem encode_continuation (c : Char) :
    (c.val.toUInt8 &&& 0x3f ||| 0x80).toNat = 128 + c.toNat % 64 ∧
    ((c.val >>> 6).toUInt8 &&& 0x3f ||| 0x80).toNat = 128 + c.toNat / 64 % 64 ∧
    ((c.val >>> 12).toUInt8 &&& 0x3f ||| 0x80).toNat = 128 + c.toNat / 4096 % 64 := by
  have hv : c.val.toNat = c.toNat := rfl
  obtain ⟨s6, s12, -⟩ := uint32_shift c.val
  refine ⟨?_, ?_, ?_⟩
  · rw [(uint8_masks _).1, uint32_toUInt8, hv]; omega
  · rw [(uint8_masks _).1, uint32_toUInt8, s6, hv]; omega
  · rw [(uint8_masks _).1, uint32_toUInt8, s12, hv]; omega

/-- The leading bytes that `utf8EncodeChar` writes. -/
theorem encode_lead (c : Char) :
    (c.toNat ≤ 127 → c.val.toUInt8.toNat = c.toNat) ∧
    (c.toNat ≤ 2047 → ((c.val >>> 6).toUInt8 &&& 0x1f ||| 0xc0).toNat = 192 + c.toNat / 64) ∧
    (c.toNat ≤ 65535 →
      ((c.val >>> 12).toUInt8 &&& 0x0f ||| 0xe0).toNat = 224 + c.toNat / 4096) ∧
    (c.toNat < 1114112 →
      ((c.val >>> 18).toUInt8 &&& 0x07 ||| 0xf0).toNat = 240 + c.toNat / 262144) := by
  have hv : c.val.toNat = c.toNat := rfl
  obtain ⟨s6, s12, s18⟩ := uint32_shift c.val
  refine ⟨?_, ?_, ?_, ?_⟩
  · intro h; rw [uint32_toUInt8, hv]; omega
  · intro h; rw [(uint8_masks _).2.1, uint32_toUInt8, s6, hv]; omega
  · intro h; rw [(uint8_masks _).2.2.1, uint32_toUInt8, s12, hv]; omega
  · intro h; rw [(uint8_masks _).2.2.2, uint32_toUInt8, s18, hv]; omega

/-- The decoder reads a continuation byte that completes a character. -/
theorem utf8DecodeAux_last (acc low : Nat) (b : UInt8) (bs : Bytes) (c : Char) (x : Nat)
    (hb : b.toNat = 128 + x) (hx : x < 64) (hcode : acc * 64 + x = c.toNat)
    (hlow : low ≤ c.toNat) :
    utf8DecodeAux 1 acc low (b :: bs) = (utf8DecodeAux 0 0 0 bs).map (c :: ·) := by
  have e : acc * 64 + (b.toNat - 128) = c.toNat := by omega
  have hvalid : Nat.isValidChar c.toNat := c.valid
  simp only [utf8DecodeAux]
  rw [if_pos (by omega), e]
  simp only [if_true]
  rw [if_pos ⟨hlow, hvalid⟩, Char.ofNat_toNat]

/-- The decoder reads a continuation byte that does not complete a character. -/
theorem utf8DecodeAux_next (k acc low : Nat) (b : UInt8) (bs : Bytes) (x : Nat)
    (hb : b.toNat = 128 + x) (hx : x < 64) :
    utf8DecodeAux (k + 2) acc low (b :: bs) = utf8DecodeAux (k + 1) (acc * 64 + x) low bs := by
  have e : acc * 64 + (b.toNat - 128) = acc * 64 + x := by omega
  simp only [utf8DecodeAux]
  rw [if_pos (by omega), e]
  simp

theorem utf8DecodeAux_encodeChar (c : Char) (bs : Bytes) :
    utf8DecodeAux 0 0 0 (String.utf8EncodeChar c ++ bs) =
      (utf8DecodeAux 0 0 0 bs).map (c :: ·) := by
  have hvalid : Nat.isValidChar c.toNat := c.valid
  have hlt : c.toNat < 1114112 := by
    rcases hvalid with h | h <;> omega
  obtain ⟨c0, c6, c12⟩ := encode_continuation c
  obtain ⟨l1, l2, l3, l4⟩ := encode_lead c
  unfold String.utf8EncodeChar
  dsimp only
  by_cases h1 : c.val ≤ 127
  · have h1n : c.toNat ≤ 127 := h1
    rw [if_pos h1]
    simp only [List.cons_append, List.nil_append, utf8DecodeAux, l1 h1n]
    rw [if_pos (by omega), Char.ofNat_toNat]
    rfl
  rw [if_neg h1]
  have h1n : 127 < c.toNat := Nat.lt_of_not_le h1
  by_cases h2 : c.val ≤ 2047
  · have h2n : c.toNat ≤ 2047 := h2
    rw [if_pos h2]
    simp only [List.cons_append, List.nil_append]
    rw [utf8DecodeAux, l2 h2n, if_neg (by omega), if_pos (by omega)]
    exact utf8DecodeAux_last _ _ _ _ c _ c0 (Nat.mod_lt _ (by decide)) (by omega) (by omega)
  rw [if_neg h2]
  have h2n : 2047 < c.toNat := Nat.lt_of_not_le h2
  by_cases h3 : c.val ≤ 65535
  · have h3n : c.toNat ≤ 65535 := h3
    rw [if_pos h3]
    simp only [List.cons_append, List.nil_append]
    rw [utf8DecodeAux, l3 h3n, if_neg (by omega), if_neg (by omega), if_pos (by omega),
      utf8DecodeAux_next 0 _ _ _ _ _ c6 (Nat.mod_lt _ (by decide))]
    exact utf8DecodeAux_last _ _ _ _ c _ c0 (Nat.mod_lt _ (by decide)) (by omega) (by omega)
  rw [if_neg h3]
  have h3n : 65535 < c.toNat := Nat.lt_of_not_le h3
  simp only [List.cons_append, List.nil_append]
  rw [utf8DecodeAux, l4 hlt, if_neg (by omega), if_neg (by omega), if_neg (by omega),
    if_pos (by omega), utf8DecodeAux_next 1 _ _ _ _ _ c12 (Nat.mod_lt _ (by decide)),
    utf8DecodeAux_next 0 _ _ _ _ _ c6 (Nat.mod_lt _ (by decide))]
  exact utf8DecodeAux_last _ _ _ _ c _ c0 (Nat.mod_lt _ (by decide)) (by omega) (by omega)

/-- Decoding undoes `utf8`. -/
theorem utf8Decode_utf8 (s : String) : utf8Decode (utf8 s) = some s := by
  have h : ∀ cs : List Char, utf8DecodeAux 0 0 0 (cs.flatMap String.utf8EncodeChar) = some cs := by
    intro cs
    induction cs with
    | nil => rfl
    | cons c t ih => rw [List.flatMap_cons, utf8DecodeAux_encodeChar, ih]; rfl
  simp [utf8Decode, utf8, h]

/-! ## JSON: parsing undoes the struct encoder -/

set_option maxRecDepth 100000 in
theorem hexValue_hexDigit_fin : ∀ k : Fin 16, hexValue (hexDigit k.val) = some k.val := by
  decide

theorem hexValue_hexDigit (k : Nat) (h : k < 16) : hexValue (hexDigit k) = some k :=
  hexValue_hexDigit_fin ⟨k, h⟩

/-- Reading a two-character escape. -/
theorem jsonReadString_simple (e ch : Char) (tail : List Char) (he : e ≠ 'u')
    (hs : jsonSimpleEscape e = some ch) :
    jsonReadString ('\\' :: e :: tail) = consRead ch (jsonReadString tail) := by
  have hne1 : ('\\' : Char) ≠ '"' := by decide
  unfold jsonReadString
  rw [jsonReadStringFrom, if_neg hne1, if_pos rfl, jsonReadStringFrom, if_neg he, hs]

/-- Reading an escape of four hexadecimal digits. -/
theorem jsonReadString_unicode (h1 h2 h3 h4 : Char) (a b c d : Nat) (tail : List Char)
    (e1 : hexValue h1 = some a) (e2 : hexValue h2 = some b) (e3 : hexValue h3 = some c)
    (e4 : hexValue h4 = some d) :
    jsonReadString ('\\' :: 'u' :: h1 :: h2 :: h3 :: h4 :: tail) =
      consRead (Char.ofNat (((a * 16 + b) * 16 + c) * 16 + d)) (jsonReadString tail) := by
  have hne1 : ('\\' : Char) ≠ '"' := by decide
  unfold jsonReadString
  rw [jsonReadStringFrom, if_neg hne1, if_pos rfl, jsonReadStringFrom, if_pos rfl,
    jsonReadStringFrom, e1]
  simp only [Nat.succ_ne_zero, if_false]
  rw [jsonReadStringFrom, e2]
  simp only [Nat.succ_ne_zero, if_false]
  rw [jsonReadStringFrom, e3]
  simp only [Nat.succ_ne_zero, if_false]
  rw [jsonReadStringFrom, e4]
  simp only [if_true, Nat.zero_mul, Nat.zero_add]

/-- Reading the escape `\u00XX` of a character below 128 gives the character back. -/
theorem jsonReadString_escapeU00 (c : Char) (tail : List Char) (h : c.toNat < 128) :
    jsonReadString (escapeU00 c ++ tail) = consRead c (jsonReadString tail) := by
  have h0 : hexValue '0' = some 0 := by decide
  have h1 := hexValue_hexDigit (c.toNat / 16) (by omega)
  have h2 := hexValue_hexDigit (c.toNat % 16) (by omega)
  have e : ((0 * 16 + 0) * 16 + c.toNat / 16) * 16 + c.toNat % 16 = c.toNat := by omega
  simp only [escapeU00, List.cons_append, List.nil_append]
  rw [jsonReadString_unicode _ _ _ _ _ _ _ _ tail h0 h0 h1 h2, e, Char.ofNat_toNat]

/-- Reading what `jsonEscapeChar` writes for a character gives the character back. -/
theorem jsonReadString_escape (c : Char) (tail : List Char) :
    jsonReadString (jsonEscapeChar c ++ tail) = consRead c (jsonReadString tail) := by
  unfold jsonEscapeChar
  by_cases a1 : c = '"'
  · subst a1; rw [if_pos rfl]
    exact jsonReadString_simple '"' '"' tail (by decide) (by decide)
  rw [if_neg a1]
  by_cases a2 : c = '\\'
  · subst a2; rw [if_pos rfl]
    exact jsonReadString_simple '\\' '\\' tail (by decide) (by decide)
  rw [if_neg a2]
  by_cases a3 : c.toNat = 8
  · rw [if_pos a3]
    have : c = Char.ofNat 8 := by rw [← a3, Char.ofNat_toNat]
    subst this
    exact jsonReadString_simple 'b' (Char.ofNat 8) tail (by decide) (by decide)
  rw [if_neg a3]
  by_cases a4 : c.toNat = 12
  · rw [if_pos a4]
    have : c = Char.ofNat 12 := by rw [← a4, Char.ofNat_toNat]
    subst this
    exact jsonReadString_simple 'f' (Char.ofNat 12) tail (by decide) (by decide)
  rw [if_neg a4]
  by_cases a5 : c = '\n'
  · subst a5; rw [if_pos rfl]
    exact jsonReadString_simple 'n' '\n' tail (by decide) (by decide)
  rw [if_neg a5]
  by_cases a6 : c = '\r'
  · subst a6; rw [if_pos rfl]
    exact jsonReadString_simple 'r' '\r' tail (by decide) (by decide)
  rw [if_neg a6]
  by_cases a7 : c = '\t'
  · subst a7; rw [if_pos rfl]
    exact jsonReadString_simple 't' '\t' tail (by decide) (by decide)
  rw [if_neg a7]
  by_cases a8 : c.toNat < 32 ∨ c = '<' ∨ c = '>' ∨ c = '&'
  · rw [if_pos a8]
    apply jsonReadString_escapeU00
    rcases a8 with h | h | h | h
    · omega
    · subst h; decide
    · subst h; decide
    · subst h; decide
  rw [if_neg a8]
  by_cases a9 : c.toNat = 0x2028
  · rw [if_pos a9]
    have : c = Char.ofNat 0x2028 := by rw [← a9, Char.ofNat_toNat]
    subst this
    exact jsonReadString_unicode '2' '0' '2' '8' 2 0 2 8 tail (by decide) (by decide)
      (by decide) (by decide)
  rw [if_neg a9]
  by_cases a10 : c.toNat = 0x2029
  · rw [if_pos a10]
    have : c = Char.ofNat 0x2029 := by rw [← a10, Char.ofNat_toNat]
    subst this
    exact jsonReadString_unicode '2' '0' '2' '9' 2 0 2 9 tail (by decide) (by decide)
      (by decide) (by decide)
  rw [if_neg a10]
  have hctl : ¬ c.toNat < 32 := fun h => a8 (Or.inl h)
  simp only [List.cons_append, List.nil_append]
  unfold jsonReadString
  rw [jsonReadStringFrom, if_neg a1, if_neg a2, if_neg hctl]

/-- Reading the contents of a string literal that `jsonString` writes. -/
theorem jsonReadString_flatMap (s : List Char) (rest : List Char) :
    jsonReadString (s.flatMap jsonEscapeChar ++ '"' :: rest) = some (s, rest) := by
  induction s with
  | nil =>
    simp only [List.flatMap_nil, List.nil_append]
    unfold jsonReadString
    rw [jsonReadStringFrom, if_pos rfl]
  | cons c t ih =>
    rw [List.flatMap_cons, List.append_assoc, jsonReadString_escape, ih]
    rfl

/-- Reading a string literal that `jsonString` writes gives the string back. -/
theorem jsonReadLiteral_jsonString (v : String) (rest : List Char) :
    jsonReadLiteral ((jsonString v).data ++ rest) = some (v, rest) := by
  simp only [jsonString, List.cons_append, List.append_assoc, List.singleton_append,
    jsonReadLiteral, if_true, jsonReadString_flatMap]
  rfl

/-- Reading the members that `encodeFields` writes behind a first member. -/
theorem jsonReadMembers_encodeFields (tag value : String) (fields : List (String × String))
    (rest : List Char) (fuel : Nat) (hfuel : fields.length < fuel) :
    jsonReadMembers fuel ((jsonString tag).data ++ ':' :: (jsonString value).data ++
        encodeFields ',' fields ++ rest) = some ((tag, value) :: fields, rest) := by
  induction fields generalizing tag value fuel with
  | nil =>
    obtain ⟨f, rfl⟩ : ∃ f, fuel = f + 1 := ⟨fuel - 1, by omega⟩
    have hc : (',' : Char) ≠ '{' := by decide
    have hd : ('}' : Char) ≠ ',' := by decide
    simp only [encodeFields, if_neg hc, List.append_assoc, List.cons_append, List.nil_append,
      jsonReadMembers, jsonReadLiteral_jsonString, if_true, if_neg hd]
  | cons kv t ih =>
    obtain ⟨f, rfl⟩ : ∃ f, fuel = f + 1 := ⟨fuel - 1, by omega⟩
    obtain ⟨k2, v2⟩ := kv
    have hlen : t.length < f := by simp at hfuel; omega
    have := ih k2 v2 f hlen
    simp only [List.append_assoc, List.cons_append] at this
    simp only [encodeFields, List.append_assoc, List.cons_append, List.nil_append,
      jsonReadMembers, jsonReadLiteral_jsonString, if_true, this]

/-- The text of `encodeFields` is longer than the number of its fields. -/
theorem encodeFields_length (next : Char) (fields : List (String × String)) :
    fields.length < (encodeFields next fields).length := by
  induction fields generalizing next with
  | nil => unfold encodeFields; split <;> simp
  | cons kv t ih =>
    obtain ⟨k, v⟩ := kv
    have := ih ','
    simp only [encodeFields, List.length_cons, List.length_append]
    omega

/-- Parsing the text that `encodeFields` writes for a struct gives its fields back,
with their values, in their order. -/
theorem jsonParseObject_encodeFields (fields : List (String × String)) :
    jsonParseObject (String.mk (encodeFields '{' fields)) = some fields := by
  cases fields with
  | nil => simp [jsonParseObject, encodeFields]
  | cons kv t =>
    obtain ⟨k, v⟩ := kv
    have hlen := encodeFields_length '{' ((k, v) :: t)
    have hq : (jsonString k).data ++ ':' :: (jsonString v).data ++ encodeFields ',' t ≠
        ['}'] := by
      simp [jsonString]
    have hm := jsonReadMembers_encodeFields k v t [] (encodeFields '{' ((k, v) :: t)).length
      (by simp at hlen ⊢; omega)
    simp only [List.append_nil] at hm
    simp only [encodeFields, List.cons_append] at hm ⊢
    simp only [jsonParseObject, if_true, String.length, List.length_cons]
    simp only [List.length_cons] at hm
    rw [if_neg hq, hm]

/-- What `json.Marshal` returns is the text of `encodeFields`, and parsing it gives the
fields back. -/
theorem jsonMarshal_parse (fields : List (String × String)) :
    ∃ text, jsonMarshal fields = .ok text ∧ utf8Decode (utf8 text) = some text ∧
      jsonParseObject text = some fields :=
  ⟨_, rfl, utf8Decode_utf8 _, jsonParseObject_encodeFields fields⟩

/-! ## C2: the body of `Nowplaying` -/

/-- A plain character is written as it is. -/
theorem jsonEscapeChar_plain (c : Char) (h : jsonPlainChar c) : jsonEscapeChar c = [c] := by
  obtain ⟨h32, hq, hb, hlt, hgt, ha, h1, h2⟩ := h
  have hn : c ≠ '\n' := by rintro rfl; revert h32; decide
  have hr : c ≠ '\r' := by rintro rfl; revert h32; decide
  have ht : c ≠ '\t' := by rintro rfl; revert h32; decide
  have hd : ¬ (c.toNat < 32 ∨ c = '<' ∨ c = '>' ∨ c = '&') := by
    rintro (h | h | h | h)
    · omega
    · exact hlt h
    · exact hgt h
    · exact ha h
  rw [jsonEscapeChar, if_neg hq, if_neg hb, if_neg (by omega), if_neg (by omega), if_neg hn,
    if_neg hr, if_neg ht, if_neg hd, if_neg h1, if_neg h2]

/-- C2: when authentication and the upstream call succeed and the item has at least one
album image and one artist, `Nowplaying` returns no error and a body that is
the JSON object of the seven keys `imageUrl`, `trackName`, `trackUrl`,
`albumName`, `albumUrl`, `artistName`, `artistUrl`, in that order, whose values
are the first image's URL, the track name, the track's `spotify` URL, the
album name, the album's `spotify` URL, the first artist's name and the first
artist's `spotify` URL: the body is the UTF-8 of a text that a JSON parser
reads as exactly these seven members, whatever characters the values hold; a
value of plain characters (none of them a control character, a quotation
mark, a backslash, `<`, `>`, `&`, U+2028 or U+2029) stands between its
quotes unchanged; the item of the specification's example gives exactly the
body of the example, byte for byte; and the track named `say "hi" & <go>`
and a line feed, at the URL `U\1`, gives the body with the escapes
`\"`, `\u0026`, `\u003c`, `\u003e`, `\n` and `\\`. -/
theorem Nowplaying_returns_seven_key_object (client : Client)
    (now : Client → Except String CurrentlyPlaying) (item : Track)
    (image : Image) (images : List Image) (artist : SimpleArtist) (artists : List SimpleArtist)
    (hup : now client = .ok { Item := some item })
    (himg : item.Album.Images = image :: images) (hart : item.Artists = artist :: artists) :
    (∃ text, Nowplaying (.ok client) now = .ok { Body := some (utf8 text) } ∧
      utf8Decode (utf8 text) = some text ∧
      jsonParseObject text = some
        [("imageUrl", image.URL), ("trackName", item.Name),
         ("trackUrl", mapGet item.ExternalURLs "spotify"),
         ("albumName", item.Album.Name),
         ("albumUrl", mapGet item.Album.ExternalURLs "spotify"),
         ("artistName", artist.Name),
         ("artistUrl", mapGet artist.ExternalURLs "spotify")] ∧
      text = "\x7b\"imageUrl\":" ++ jsonString image.URL ++
        ",\"trackName\":" ++ jsonString item.Name ++
        ",\"trackUrl\":" ++ jsonString (mapGet item.ExternalURLs "spotify") ++
        ",\"albumName\":" ++ jsonString item.Album.Name ++
        ",\"albumUrl\":" ++ jsonString (mapGet item.Album.ExternalURLs "spotify") ++
        ",\"artistName\":" ++ jsonString artist.Name ++
        ",\"artistUrl\":" ++ jsonString (mapGet artist.ExternalURLs "spotify") ++ "\x7d") ∧
    (∀ v : String, (∀ c ∈ v.data, jsonEscapeChar c = [c]) → jsonString v = "\"" ++ v ++ "\"") ∧
    (∀ v : String, (∀ c ∈ v.data, jsonPlainChar c) → jsonString v = "\"" ++ v ++ "\"") ∧
    (∃ body, Nowplaying (.ok client) (fun _ => .ok { Item := some sampleTrack }) =
        .ok { Body := some body } ∧
      body = utf8 ("\x7b\"imageUrl\":\"X\",\"trackName\":\"T\",\"trackUrl\":\"U\"," ++
        "\"albumName\":\"A\",\"albumUrl\":\"AU\",\"artistName\":\"AR\",\"artistUrl\":\"ARU\"\x7d") ∧
      body.map UInt8.toNat =
        [123, 34, 105, 109, 97, 103, 101, 85, 114, 108, 34, 58, 34, 88, 34, 44, 34, 116,
        114, 97, 99, 107, 78, 97, 109, 101, 34, 58, 34, 84, 34, 44, 34, 116, 114, 97,
        99, 107, 85, 114, 108, 34, 58, 34, 85, 34, 44, 34, 97, 108, 98, 117, 109, 78,
        97, 109, 101, 34, 58, 34, 65, 34, 44, 34, 97, 108, 98, 117, 109, 85, 114, 108,
        34, 58, 34, 65, 85, 34, 44, 34, 97, 114, 116, 105, 115, 116, 78, 97, 109, 101,
        34, 58, 34, 65, 82, 34, 44, 34, 97, 114, 116, 105, 115, 116, 85, 114, 108, 34,
        58, 34, 65, 82, 85, 34, 125]) ∧
    Nowplaying (.ok client) (fun _ => .ok { Item := some escapedTrack }) =
      .ok { Body := some (utf8 ("\x7b\"imageUrl\":\"X\"," ++
        "\"trackName\":\"say \\\"hi\\\" \\u0026 \\u003cgo\\u003e\\n\"," ++
        "\"trackUrl\":\"U\\\\1\",\"albumName\":\"A\",\"albumUrl\":\"AU\"," ++
        "\"artistName\":\"AR\",\"artistUrl\":\"ARU\"\x7d")) } := by
  refine ⟨?_, jsonString_plain,
    fun v h => jsonString_plain v fun c hc => jsonEscapeChar_plain c (h c hc), ?_, ?_⟩
  · refine ⟨_, ?_, utf8Decode_utf8 _, ?_, rfl⟩
    · simp only [Nowplaying, hup, projectNowPlaying, index0, himg, hart]
      rw [jsonMarshal_nowPlaying]
    · have h := jsonParseObject_encodeFields
        (NowPlaying.fields
          { ImageUrl := image.URL, TrackName := item.Name
            TrackUrl := mapGet item.ExternalURLs "spotify", AlbumName := item.Album.Name
            AlbumUrl := mapGet item.Album.ExternalURLs "spotify", ArtistName := artist.Name
            ArtistUrl := mapGet artist.ExternalURLs "spotify" })
      have hm := jsonMarshal_nowPlaying
          { ImageUrl := image.URL, TrackName := item.Name
            TrackUrl := mapGet item.ExternalURLs "spotify", AlbumName := item.Album.Name
            AlbumUrl := mapGet item.Album.ExternalURLs "spotify", ArtistName := artist.Name
            ArtistUrl := mapGet artist.ExternalURLs "spotify" }
      simp only [jsonMarshal, Except.ok.injEq] at hm
      rw [hm] at h
      exact h
  · refine ⟨_, ?_, rfl, by decide⟩
    simp only [Nowplaying, projectNowPlaying, index0, sampleTrack]
    rw [jsonMarshal_nowPlaying]
    simp only
    have e : ∀ a b : String, a = b →
        (Outcome.ok { Body := some (utf8 a) } : Outcome NowplayingResponse) =
          Outcome.ok { Body := some (utf8 b) } := by
      intro a b hab; rw [hab]
    exact e _ _ (by decide)
  · simp only [Nowplaying, projectNowPlaying, index0, escapedTrack, sampleTrack]
    rw [jsonMarshal_nowPlaying]
    simp only
    have e : ∀ a b : String, a = b →
        (Outcome.ok { Body := some (utf8 a) } : Outcome NowplayingResponse) =
          Outcome.ok { Body := some (utf8 b) } := by
      intro a b hab; rw [hab]
    exact e _ _ (by decide)

/-- C2 on an item with characters to escape: the track `say "hi" & <go>` and a line
feed, at a URL with a backslash, gives a body whose text a JSON parser reads
back to these values. -/
theorem Nowplaying_returns_seven_key_object_witness :
    ∃ text, Nowplaying (.ok sampleClient) (fun _ => .ok { Item := some escapedTrack }) =
        .ok { Body := some (utf8 text) } ∧
      utf8Decode (utf8 text) = some text ∧
      jsonParseObject text = some
        [("imageUrl", "X"), ("trackName", "say \"hi\" & <go>\n"), ("trackUrl", "U\\1"),
         ("albumName", "A"), ("albumUrl", "AU"), ("artistName", "AR"), ("artistUrl", "ARU")] :=
  let h := (Nowplaying_returns_seven_key_object sampleClient
    (fun _ => .ok { Item := some escapedTrack }) escapedTrack
    { Height := 640, Width := 640, URL := "X" } []
    { Name := "AR", ExternalURLs := [("spotify", "ARU")] } [] rfl rfl rfl).1
  ⟨h.choose, h.choose_spec.1, h.choose_spec.2.1, h.choose_spec.2.2.1⟩

/-! ## C3: the `playedAt` field of `Lastplayed` -/

/-- The field expression of `playedAt` is the stamp of the date and clock nine hours
later, when the year of that date has four digits. -/
theorem playedAtField_eq_stamp (t : Time) (h : t.wellFormed)
    (hy0 : 0 ≤ t.civil.plusNineHours.year) (hy1 : t.civil.plusNineHours.year ≤ 9999) :
    playedAtField t = t.civil.plusNineHours.stamp := by
  rw [playedAtField_eq_write t h]
  have hr := civil_range ({ sec := t.sec + 32400, nsec := t.nsec } : Time)
  rw [civil_add_nine_hours] at hr
  obtain ⟨m1, m2, d1, d2, h1, h2, mi1, mi2, s1, s2⟩ := hr
  exact write_eq_stamp _ hy0 hy1 ⟨by omega, by omega⟩ ⟨by omega, by omega⟩
    ⟨by omega, by omega⟩ ⟨by omega, by omega⟩ ⟨by omega, by omega⟩

/-- A stamp has nineteen characters. -/
theorem stamp_length (c : Civil) : c.stamp.length = 19 := by
  simp [Civil.stamp, fourDigits, twoDigits, String.length]

/-- C3, with the year bounded: when authentication and the upstream call succeed, the
first entry of the history has an image and an artist, and the date nine hours
after its played-at time `t` (UTC) lies in the years 0 to 9999, `Lastplayed`
builds a `LastPlayed` whose `PlayedAt` is the calendar date and clock of `t`
plus nine hours written `YYYY-MM-DD HH:MM:SS`, the day, the month and the year
rolling over as the calendar does, and returns the body whose JSON text has
this very string as the member `playedAt`; for every `t` at all the field is
that date and clock with the year as `Format` writes it; and the entry played
at 2024-01-01T00:00:00Z gives `"playedAt":"2024-01-01 09:00:00"`. -/
theorem Lastplayed_playedAt_nine_hours_later (client : Client)
    (last : Client → Except String (List RecentlyPlayedItem))
    (first : RecentlyPlayedItem) (rest : List RecentlyPlayedItem)
    (image : Image) (images : List Image) (artist : SimpleArtist) (artists : List SimpleArtist)
    (hup : last client = .ok (first :: rest))
    (himg : first.Track.Album.Images = image :: images)
    (hart : first.Track.Artists = artist :: artists)
    (ht : first.PlayedAt.wellFormed)
    (hy0 : 0 ≤ first.PlayedAt.civil.plusNineHours.year)
    (hy1 : first.PlayedAt.civil.plusNineHours.year ≤ 9999) :
    projectLastPlayed first = .ok
        { ImageUrl := image.URL
          PlayedAt := first.PlayedAt.civil.plusNineHours.stamp
          TrackName := first.Track.Name
          TrackUrl := mapGet first.Track.ExternalURLs "spotify"
          AlbumName := first.Track.Album.Name
          AlbumUrl := mapGet first.Track.Album.ExternalURLs "spotify"
          ArtistName := artist.Name
          ArtistUrl := mapGet artist.ExternalURLs "spotify" } ∧
    (∃ text, Lastplayed (.ok client) last = .ok { Body := some (utf8 text) } ∧
      utf8Decode (utf8 text) = some text ∧
      jsonParseObject text = some
        [("imageUrl", image.URL),
         ("playedAt", first.PlayedAt.civil.plusNineHours.stamp),
         ("trackName", first.Track.Name),
         ("trackUrl", mapGet first.Track.ExternalURLs "spotify"),
         ("albumName", first.Track.Album.Name),
         ("albumUrl", mapGet first.Track.Album.ExternalURLs "spotify"),
         ("artistName", artist.Name),
         ("artistUrl", mapGet artist.ExternalURLs "spotify")]) ∧
    first.PlayedAt.civil.plusNineHours.stamp.length = 19 ∧
    (∀ t : Time, t.wellFormed → playedAtField t = t.civil.plusNineHours.write) ∧
    (sampleHistoryItem.PlayedAt.civil =
        { year := 2024, month := 1, day := 1, hour := 0, minute := 0, second := 0 } ∧
      Lastplayed (.ok client) (fun _ => .ok [sampleHistoryItem]) =
        .ok { Body := some (utf8 ("\x7b\"imageUrl\":\"X\",\"playedAt\":\"2024-01-01 09:00:00\"," ++
          "\"trackName\":\"T\",\"trackUrl\":\"U\",\"albumName\":\"A\",\"albumUrl\":\"AU\"," ++
          "\"artistName\":\"AR\",\"artistUrl\":\"ARU\"\x7d")) }) := by
  have hp : projectLastPlayed first = .ok
        { ImageUrl := image.URL
          PlayedAt := first.PlayedAt.civil.plusNineHours.stamp
          TrackName := first.Track.Name
          TrackUrl := mapGet first.Track.ExternalURLs "spotify"
          AlbumName := first.Track.Album.Name
          AlbumUrl := mapGet first.Track.Album.ExternalURLs "spotify"
          ArtistName := artist.Name
          ArtistUrl := mapGet artist.ExternalURLs "spotify" } := by
    simp only [projectLastPlayed, index0, himg, hart]
    rw [playedAtField_eq_stamp _ ht hy0 hy1]
  refine ⟨hp, ?_, stamp_length _, playedAtField_eq_write, by decide, ?_⟩
  · refine ⟨_, ?_, utf8Decode_utf8 _, jsonParseObject_encodeFields _⟩
    simp only [Lastplayed, hup, hp, jsonMarshal, LastPlayed.fields]
  · have e : ∀ a b : String, a = b →
        (Outcome.ok { Body := some (utf8 a) } : Outcome LastPlayedResponse) =
          Outcome.ok { Body := some (utf8 b) } := by
      intro a b hab; rw [hab]
    have hs : projectLastPlayed sampleHistoryItem = .ok
        { ImageUrl := "X", PlayedAt := "2024-01-01 09:00:00", TrackName := "T", TrackUrl := "U"
          AlbumName := "A", AlbumUrl := "AU", ArtistName := "AR", ArtistUrl := "ARU" } := by
      decide
    simp only [Lastplayed, hs, jsonMarshal]
    exact e _ _ (by decide)

/-- C3 at the last second of a leap day: the entry played at 2024-02-29T23:59:59Z gets
the first of March, `2024-03-01 08:59:59`, as its `PlayedAt`. -/
theorem Lastplayed_playedAt_nine_hours_later_witness :
    projectLastPlayed { Track := sampleTrack, PlayedAt := { sec := 1709251199, nsec := 0 } } =
      .ok { ImageUrl := "X", PlayedAt := "2024-03-01 08:59:59", TrackName := "T"
            TrackUrl := "U", AlbumName := "A", AlbumUrl := "AU", ArtistName := "AR"
            ArtistUrl := "ARU" } :=
  (Lastplayed_playedAt_nine_hours_later sampleClient
    (fun _ => .ok [{ Track := sampleTrack, PlayedAt := { sec := 1709251199, nsec := 0 } }])
    { Track := sampleTrack, PlayedAt := { sec := 1709251199, nsec := 0 } } []
    { Height := 640, Width := 640, URL := "X" } []
    { Name := "AR", ExternalURLs := [("spotify", "ARU")] } [] rfl rfl rfl
    ⟨by decide, by decide⟩ (by decide) (by decide)).1.trans (by decide)

/-- C3 without the bound on the year fails at 9999-12-31T15:00:00Z: nine hours later is the first day of
the year 10000, and `Lastplayed` writes `10000-01-01 00:00:00`, twenty
characters, which is the stamp `YYYY-MM-DD HH:MM:SS` of no date. -/
theorem Lastplayed_playedAt_nine_hours_later_counterexample :
    lateHistoryItem.PlayedAt.wellFormed ∧
    lateHistoryItem.PlayedAt.civil =
      { year := 9999, month := 12, day := 31, hour := 15, minute := 0, second := 0 } ∧
    lateHistoryItem.PlayedAt.civil.plusNineHours =
      { year := 10000, month := 1, day := 1, hour := 0, minute := 0, second := 0 } ∧
    projectLastPlayed lateHistoryItem =
      .ok { ImageUrl := "X", PlayedAt := "10000-01-01 00:00:00", TrackName := "T"
            TrackUrl := "U", AlbumName := "A", AlbumUrl := "AU", ArtistName := "AR"
            ArtistUrl := "ARU" } ∧
    Lastplayed (.ok sampleClient) (fun _ => .ok [lateHistoryItem]) =
      .ok { Body := some (utf8 ("\x7b\"imageUrl\":\"X\",\"playedAt\":\"10000-01-01 00:00:00\"," ++
        "\"trackName\":\"T\",\"trackUrl\":\"U\",\"albumName\":\"A\",\"albumUrl\":\"AU\"," ++
        "\"artistName\":\"AR\",\"artistUrl\":\"ARU\"\x7d")) } ∧
    "10000-01-01 00:00:00".length = 20 ∧
    (∀ c : Civil, "10000-01-01 00:00:00" ≠ c.stamp) := by
  have e : ∀ a b : String, a = b →
      (Outcome.ok { Body := some (utf8 a) } : Outcome LastPlayedResponse) =
        Outcome.ok { Body := some (utf8 b) } := by
    intro a b hab; rw [hab]
  have hs : projectLastPlayed lateHistoryItem = .ok
      { ImageUrl := "X", PlayedAt := "10000-01-01 00:00:00", TrackName := "T", TrackUrl := "U"
        AlbumName := "A", AlbumUrl := "AU", ArtistName := "AR", ArtistUrl := "ARU" } := by
    decide
  refine ⟨⟨by decide, by decide⟩, by decide, by decide, hs, ?_, by decide, ?_⟩
  · simp only [Lastplayed, hs, jsonMarshal]
    exact e _ _ (by decide)
  · intro c h
    have hl := congrArg String.length h
    rw [stamp_length] at hl
    exact absurd hl (by decide)

end YanoPortfolio
